import Mathlib

/-!
Verification of BeeRef's SQLite persistence engine (`beeref/fileio/sql.py`)
against its natural-language specification.

The engine is shallowly embedded: the SQLite container file is a pair of row
lists (`items`, `sqlar`), the scene is a list of in-memory item handles, and
the `SQLiteIO` methods become pure state-passing functions.  Every helper
(`insert_item`, `update_item`, `delete_items`) in the source commits the
transaction at its end, so the model applies each helper's effect directly
to the committed container state.

Modelling conventions (each noted at its definition):
* floats (x, y, z, scale, rotation) are carried as `Int`: the engine only
  stores and copies them, never computes with them, so the carrier type is
  irrelevant to the claims;
* the structured JSON payload is opaque: `json.loads (json.dumps d) = d`
  holds for the dictionaries produced by `get_extra_save_data`, so the
  `items.data` column is modelled as storing the payload value itself;
* `PRAGMA`/`VACUUM`/`msleep` and logging have no effect on the modelled
  state and are dropped;
* the Qt image decoder used by `BeePixmapItem.pixmap_from_bytes` is an
  external opaque function; the read pipeline is parametrised by a
  predicate `pixmapLoads` telling which byte strings decode to a non-null
  pixmap.
-/

namespace BeeRef

/-- Opaque structured payload (`items.data` column): the JSON document
produced by `item.get_extra_save_data()` / consumed by `json.loads`.
Keys map to opaque serialised values; the engine never inspects them
except for setting the `text` key on a decode failure. -/
structure Payload where
  fields : List (String × String)
deriving DecidableEq, Repr

/-- Python dict assignment `d[key] = value` on a payload. -/
def Payload.setField (p : Payload) (key value : String) : Payload :=
  ⟨(key, value) :: p.fields.filter (fun kv => kv.1 ≠ key)⟩

/-- One row of the `items` table (`schema.py` SCHEMA[0]). -/
structure ItemRow where
  id : Nat
  itype : String
  x : Int
  y : Int
  z : Int
  scale : Int
  rotation : Int
  flip : Int
  data : Payload
deriving DecidableEq, Repr

/-- One row of the `sqlar` table (`schema.py` SCHEMA[1]). -/
structure SqlarRow where
  name : String
  item_id : Nat
  mode : Nat
  mtime : Nat
  sz : Nat
  data : List Nat
deriving DecidableEq, Repr

/-- Committed contents of the container file's two tables. -/
structure DB where
  items : List ItemRow
  sqlar : List SqlarRow
deriving DecidableEq, Repr

/-- The empty, freshly created container. -/
def DB.empty : DB := ⟨[], []⟩

/-- In-memory handle for a saveable item (`BeePixmapItem` / `BeeTextItem`):
the objects that carry a `save_id` attribute and are returned by
`scene.items_for_save()`.  `hasPixmap` models `hasattr(item,
'pixmap_to_bytes')`; `pixBytes`/`imgformat` are the encoded blob returned
by `pixmap_to_bytes()`; `filenameStem` is the basename-without-extension
of `item.filename` used by `get_filename_for_export`. -/
structure NormalItem where
  itype : String
  save_id : Option Nat
  x : Int
  y : Int
  z : Int
  scale : Int
  rotation : Int
  flip : Int
  payload : Payload
  hasPixmap : Bool
  pixBytes : List Nat
  imgformat : String
  filenameStem : Option String
deriving DecidableEq, Repr

/-- In-memory `BeeErrorItem`: carries `original_save_id` and *no*
`save_id` attribute, so it is excluded from `items_for_save()`. -/
structure ErrorItem where
  original_save_id : Option Nat
  x : Int
  y : Int
  z : Int
  scale : Int
  rotation : Int
  payload : Payload
deriving DecidableEq, Repr

/-- An element of the scene's item list. -/
inductive SceneItem where
  | normal (it : NormalItem)
  | errorItem (e : ErrorItem)
deriving DecidableEq, Repr

/-- The scene's user items, in the ascending stacking order that
`scene.items(order=AscendingOrder)` enumerates them in. -/
abbrev Scene := List SceneItem

/-- Model of `scene.items_for_save()`: the items that have a `save_id`
attribute, i.e. the pixmap/text items, in scene order. -/
def items_for_save (s : Scene) : List NormalItem :=
  s.filterMap (fun si => match si with
    | .normal it => some it
    | .errorItem _ => none)

/-- Model of `scene.items_by_type(BeeErrorItem.TYPE)`: the error-placeholder
items (the only class whose `TYPE` is `'error'`). -/
def items_by_type_error (s : Scene) : List ErrorItem :=
  s.filterMap (fun si => match si with
    | .normal _ => none
    | .errorItem e => some e)

/-- Model of `scene.clear_save_ids()`: sets `item.save_id = None` on every
item returned by `items_for_save()`. -/
def clear_save_ids (s : Scene) : Scene :=
  s.map (fun si => match si with
    | .normal it => .normal {it with save_id := none}
    | .errorItem e => .errorItem e)

/-- Python truthiness of `item.save_id` as used by
`if item.save_id:` in `write_data` (`None` and `0` are falsy). -/
def truthy : Option Nat → Bool
  | none => false
  | some n => n ≠ 0

/-- Successor of `SELECT max(id)`: SQLite assigns `lastrowid` for an
`INTEGER PRIMARY KEY` as one more than the largest rowid in use. -/
def freshId (db : DB) : Nat :=
  db.items.foldr (fun r acc => Nat.max r.id acc) 0 + 1

/-- Zero-pad a numeral to four digits, modelling the `f'{save_id:04}'`
format used by `get_filename_for_export`. -/
def pad4 (n : Nat) : String :=
  let s := toString n
  String.mk (List.replicate (4 - s.length) '0') ++ s

/-- Model of `BeePixmapItem.get_filename_for_export(imgformat)` for an item whose
`save_id` was just assigned (`items.py`): `{save_id:04}-{basename}.{fmt}`
when the item has a filename, else `{save_id:04}.{fmt}`. -/
def get_filename_for_export (it : NormalItem) (sid : Nat) : String :=
  match it.filenameStem with
  | some base => pad4 sid ++ "-" ++ base ++ "." ++ it.imgformat
  | none => pad4 sid ++ "." ++ it.imgformat

/-- Model of `SQLiteIO.insert_item`: INSERT the items row (SQLite assigns the
fresh id, copied back onto the item), then, when the item has
`pixmap_to_bytes`, INSERT its sqlar row (mode `0o644`, `mtime` takes the
column default `current_timestamp`, modelled as 0), and commit.
Returns the committed container and the mutated item. -/
def insert_item (db : DB) (it : NormalItem) : DB × NormalItem :=
  let newId := freshId db
  let row : ItemRow :=
    { id := newId, itype := it.itype, x := it.x, y := it.y, z := it.z,
      scale := it.scale, rotation := it.rotation, flip := it.flip,
      data := it.payload }
  let it' := {it with save_id := some newId}
  let db' : DB := ⟨db.items ++ [row], db.sqlar⟩
  if it.hasPixmap then
    let srow : SqlarRow :=
      { name := get_filename_for_export it' newId, item_id := newId,
        mode := 420, mtime := 0, sz := it.pixBytes.length,
        data := it.pixBytes }
    (⟨db'.items, db'.sqlar ++ [srow]⟩, it')
  else
    (db', it')

/-- Model of `SQLiteIO.update_item`: UPDATE the transform fields and payload of
the items row whose id equals the item's `save_id`, and commit.  The
sqlar table is not touched ("pixmap data never changes"). -/
def update_item (db : DB) (it : NormalItem) (sid : Nat) : DB :=
  ⟨db.items.map (fun r =>
      if r.id = sid then
        { r with x := it.x, y := it.y, z := it.z, scale := it.scale,
                 rotation := it.rotation, flip := it.flip,
                 data := it.payload }
      else r),
   db.sqlar⟩

/-- Model of `SQLiteIO.delete_items`: DELETE the items rows whose id is in
`to_delete` and the sqlar rows whose `item_id` is, and commit. -/
def delete_items (db : DB) (to_delete : List Nat) : DB :=
  ⟨db.items.filter (fun r => ¬ r.id ∈ to_delete),
   db.sqlar.filter (fun r => ¬ r.item_id ∈ to_delete)⟩

/-- A signal emitted through the worker interface
(`ThreadedIO.begin_processing` / `progress` / `finished`). -/
inductive Sig where
  | begin_processing (n : Nat)
  | progress (i : Nat)
  | finished (filename : String) (errors : List String)
deriving DecidableEq, Repr

/-- The worker object.  `canceled i` is the value of the externally set
`worker.canceled` flag at the moment it is checked, which is always
right after processing the item with loop index `i`. -/
structure Worker where
  canceled : Nat → Bool

/-- A Python exception raised inside the modelled engine:
`set.remove` on an absent element (`to_delete.remove(item.save_id)`),
or `sqlite3.OperationalError`. -/
inductive PyErr where
  | keyError (n : Nat)
  | operationalError (msg : String)
deriving DecidableEq, Repr

/-- State returned by the per-item loop of `write_data`: the committed
container, the scene (processed prefix mutated in place, unprocessed
suffix untouched), the remaining `to_delete` set, the signals emitted
by the loop, and the exception that escaped it, if any. -/
structure LoopResult where
  db : DB
  sceneOut : Scene
  to_delete : List Nat
  log : List Sig
  err : Option PyErr
deriving DecidableEq, Repr

/-- The per-item loop of `SQLiteIO.write_data` (lines 312-324).  It
iterates over `to_save = items_for_save(scene)`; error items sit in the
scene but are skipped, so the recursion walks the scene and processes
only `.normal` entries, keeping the loop index `i` in step with the
enumeration of `to_save`.  For each saveable item: if `item.save_id` is
truthy, `update_item` (committed) then `to_delete.remove(save_id)`
(raising `KeyError` when absent); else `insert_item` (committed, id
written back).  Then, when a worker is present, `progress.emit(i)` and
a cooperative cancellation check that breaks out of the loop. -/
def write_loop (worker : Option Worker) :
    Scene → Nat → DB → List Nat → LoopResult
  | [], _, db, td => ⟨db, [], td, [], none⟩
  | .errorItem e :: rest, i, db, td =>
      let r := write_loop worker rest i db td
      {r with sceneOut := .errorItem e :: r.sceneOut}
  | .normal it :: rest, i, db, td =>
      if truthy it.save_id then
        let sid := it.save_id.getD 0
        let db1 := update_item db it sid
        if sid ∈ td then
          let td1 := td.filter (fun n => n ≠ sid)
          match worker with
          | none =>
              let r := write_loop none rest (i + 1) db1 td1
              {r with sceneOut := .normal it :: r.sceneOut}
          | some w =>
              if w.canceled i then
                ⟨db1, .normal it :: rest, td1, [.progress i], none⟩
              else
                let r := write_loop (some w) rest (i + 1) db1 td1
                ⟨r.db, .normal it :: r.sceneOut, r.to_delete,
                 .progress i :: r.log, r.err⟩
        else
          ⟨db1, .normal it :: rest, td, [], some (.keyError sid)⟩
      else
        let p := insert_item db it
        match worker with
        | none =>
            let r := write_loop none rest (i + 1) p.1 td
            {r with sceneOut := .normal p.2 :: r.sceneOut}
        | some w =>
            if w.canceled i then
              ⟨p.1, .normal p.2 :: rest, td, [.progress i], none⟩
            else
              let r := write_loop (some w) rest (i + 1) p.1 td
              ⟨r.db, .normal p.2 :: r.sceneOut, r.to_delete,
               .progress i :: r.log, r.err⟩

/-- Lines 299-304 of `write_data`: the provisional deletion set — every
id currently stored in `items`, minus the `original_save_id`s of the
live error-placeholder items. -/
def compute_to_delete (db : DB) (scene : Scene) : List Nat :=
  let keep := (items_by_type_error scene).map (·.original_save_id)
  ((db.items.map (·.id)).dedup).filter (fun n => ¬ some n ∈ keep)

/-- Result of one run of `write_data`: committed container, mutated
scene, emitted signals, escaped exception (if any). -/
structure WDResult where
  db : DB
  scene : Scene
  log : List Sig
  err : Option PyErr
deriving DecidableEq, Repr

/-- Model of `SQLiteIO.write_data`: compute the deletion set, report
`begin_processing`, run the per-item loop, then — whether the loop ran
to completion or was broken out of by cancellation — delete every id
still in `to_delete`, VACUUM (no effect on contents), commit, and
report `finished(filename, [])`.  An exception escaping the loop skips
the deletion phase and propagates. -/
def write_data (worker : Option Worker) (filename : String)
    (db : DB) (scene : Scene) : WDResult :=
  let td := compute_to_delete db scene
  let n := (items_for_save scene).length
  let logBegin : List Sig :=
    if worker.isSome then [.begin_processing n] else []
  let r := write_loop worker scene 0 db td
  match r.err with
  | some e => ⟨r.db, r.sceneOut, logBegin ++ r.log, some e⟩
  | none =>
      let db2 := delete_items r.db r.to_delete
      let logFin : List Sig :=
        if worker.isSome then [.finished filename []] else []
      ⟨db2, r.sceneOut, logBegin ++ r.log ++ logFin, none⟩

/-! ### Read pipeline -/

/-- One row of the result set built by `SQLiteIO.read` (lines 217-228):
items joined with their sqlar blob, followed by the text items with a
NULL blob column. -/
structure RowTuple where
  id : Nat
  itype : String
  x : Int
  y : Int
  z : Int
  scale : Int
  rotation : Int
  flip : Int
  data : Payload
  blob : Option (List Nat)
deriving DecidableEq, Repr

/-- The two SELECTs of `SQLiteIO.read`: `FROM sqlar JOIN items ON
sqlar.item_id = items.id` (SQLite scans `sqlar` and looks each
`item_id` up by the `items` integer primary key), concatenated with
`FROM items WHERE items.type = "text"` in table order. -/
def read_rows (db : DB) : List RowTuple :=
  db.sqlar.filterMap (fun s =>
    (db.items.find? (fun r => r.id = s.item_id)).map (fun r =>
      ⟨r.id, r.itype, r.x, r.y, r.z, r.scale, r.rotation, r.flip,
       r.data, some s.data⟩))
  ++ (db.items.filter (fun r => r.itype = "text")).map (fun r =>
      ⟨r.id, r.itype, r.x, r.y, r.z, r.scale, r.rotation, r.flip,
       r.data, none⟩)

/-- The fields of the dictionary built for each row (lines 235-245),
as later consumed by `add_queued_items`/`update_from_data`. -/
structure ItemData where
  save_id : Nat
  itype : String
  x : Int
  y : Int
  z : Int
  scale : Int
  rotation : Int
  flip : Int
  data : Payload
deriving DecidableEq, Repr

/-- Constant `IMG_LOADING_ERROR_MSG` from `errors.py`. -/
def IMG_LOADING_ERROR_MSG : String :=
  "Unknown format or too big?\nCheck Settings -> Images & Items -> Maximum Image Size"

/-- The dictionary handed to `scene.add_item_later` for one row
(lines 235-245).  The `item` key (the freshly constructed Qt object,
or — on decode failure — the diagnostic string) lives outside the
modelled state.  For a `pixmap` row whose blob fails to decode
(`pixmap().isNull()`), the type tag is rewritten to
`BeeErrorItem.TYPE` and the payload's `text` key is set to the
diagnostic (the just-constructed item has `filename = None`). -/
def mkItemData (pixmapLoads : List Nat → Bool) (row : RowTuple) : ItemData :=
  if row.itype = "pixmap" then
    match row.blob with
    | some bytes =>
        if pixmapLoads bytes then
          ⟨row.id, row.itype, row.x, row.y, row.z, row.scale,
           row.rotation, row.flip, row.data⟩
        else
          ⟨row.id, "error", row.x, row.y, row.z, row.scale,
           row.rotation, row.flip,
           row.data.setField "text"
             ("Image could not be loaded: None\n" ++ IMG_LOADING_ERROR_MSG)⟩
    | none =>
        -- unreachable: pixmap rows come from the sqlar join and always
        -- carry a blob
        ⟨row.id, row.itype, row.x, row.y, row.z, row.scale,
         row.rotation, row.flip, row.data⟩
  else
    ⟨row.id, row.itype, row.x, row.y, row.z, row.scale,
     row.rotation, row.flip, row.data⟩

/-- Result of `SQLiteIO.read`: the item dictionaries queued via
`scene.add_item_later`, in queuing order, and the emitted signals. -/
structure ReadResult where
  queued : List ItemData
  log : List Sig
deriving DecidableEq, Repr

/-- The per-record loop of `SQLiteIO.read` (lines 233-271): build the
dictionary, queue it, then — when a worker is present — emit
`progress(i)` and check `worker.canceled`; if set, emit
`finished('', [])` and return at once.  After the last record,
`finished(filename, [])`. -/
def read_loop (pixmapLoads : List Nat → Bool) (worker : Option Worker)
    (filename : String) : List RowTuple → Nat → ReadResult
  | [], _ =>
      ⟨[], if worker.isSome then [.finished filename []] else []⟩
  | row :: rest, i =>
      let d := mkItemData pixmapLoads row
      match worker with
      | none =>
          let r := read_loop pixmapLoads none filename rest (i + 1)
          ⟨d :: r.queued, r.log⟩
      | some w =>
          if w.canceled i then
            ⟨[d], [.progress i, .finished "" []]⟩
          else
            let r := read_loop pixmapLoads (some w) filename rest (i + 1)
            ⟨d :: r.queued, .progress i :: r.log⟩

/-- Model of `SQLiteIO.read`: fetch the row set, report `begin_processing` with
its size, then run the per-record loop. -/
def read (pixmapLoads : List Nat → Bool) (worker : Option Worker)
    (filename : String) (db : DB) : ReadResult :=
  let rows := read_rows db
  let r := read_loop pixmapLoads worker filename rows 0
  ⟨r.queued,
   (if worker.isSome then [Sig.begin_processing rows.length] else [])
     ++ r.log⟩

/-! ### Connection establishment and migration -/

/-- Constant `USER_VERSION` from `schema.py`. -/
def USER_VERSION : Nat := 2

/-- Constant `APPLICATION_ID` from `schema.py`. -/
def APPLICATION_ID : Nat := 2060242126

/-- The container file as stored at a path: version and application-id
pragmas plus table contents.  `migrationRaises` abstracts whether
running the pending migration statements of `MIGRATIONS` against this
file's contents raises (e.g. corrupt schema); the v1→v2 column
backfill's effect on row payloads is not inspected by any claim and is
not further modelled. -/
structure StoredFile where
  version : Nat
  app_id : Option Nat
  db : DB
  migrationRaises : Bool
deriving DecidableEq, Repr

/-- A freshly created, empty SQLite database (the result of connecting
to a path with no file at it): `user_version` 0, no application id, no
tables yet. -/
def freshFile : StoredFile :=
  ⟨0, none, DB.empty, false⟩

/-- Model of `SQLiteIO._migrate`: no-op when the stored version is already
current; otherwise run the migration statements in one transaction and
stamp the identity/version pragmas (`write_meta`).  A failing statement
leaves the file unchanged (transaction not committed) and raises. -/
def migrate (f : StoredFile) : Except Unit StoredFile :=
  if f.version ≥ USER_VERSION then .ok f
  else if f.migrationRaises then .error ()
  else .ok {f with version := USER_VERSION, app_id := some APPLICATION_ID,
                   migrationRaises := false}

/-- The `create_new`/`readonly`/`retry` flags of a `SQLiteIO` object. -/
structure Engine where
  create_new : Bool
  readonly : Bool
  retry : Bool
deriving DecidableEq, Repr

/-- Result of `SQLiteIO._establish_connection`: the engine flags after
the call, the state of the path, the connected database (none when
`sqlite3.connect` itself failed, i.e. readonly mode on a missing
file), and the scene. -/
structure ConnResult where
  engine : Engine
  fileAfter : Option StoredFile
  conn : Option StoredFile
  scene : Scene
deriving DecidableEq, Repr

/-- Model of `SQLiteIO._establish_connection` (lines 109-133): delete the file
when create-new and writable; clear all scene save ids when
create-new; connect (readonly uses `mode=rw`, which requires an
existing file); and, when not create-new, migrate — a migration
failure is caught, `create_new` is forced to `True` and the method
recurses.  On a successful migration of a writable file the migrated
contents are committed to the path; for a readonly source the path is
left as it was (direct pragma write or temporary working copy). -/
def establish_connection (eng : Engine) (file : Option StoredFile)
    (scene : Scene) : ConnResult :=
  let file1 := if eng.create_new ∧ ¬ eng.readonly then none else file
  let scene1 := if eng.create_new then clear_save_ids scene else scene
  match file1 with
  | none =>
      if eng.readonly then ⟨eng, none, none, scene1⟩
      else if eng.create_new then ⟨eng, none, some freshFile, scene1⟩
      else
        match migrate freshFile with
        | .ok f' => ⟨eng, some f', some f', scene1⟩
        | .error _ =>
            establish_connection {eng with create_new := true} none scene1
  | some f =>
      if eng.create_new then ⟨eng, some f, some f, scene1⟩
      else
        match migrate f with
        | .ok f' =>
            let fileAfter := if eng.readonly then some f else some f'
            ⟨eng, fileAfter, some f', scene1⟩
        | .error _ =>
            establish_connection {eng with create_new := true} (some f) scene1
termination_by (if eng.create_new then 0 else 1)
decreasing_by all_goals simp_all

/-- Model of `SQLiteIO.create_schema_on_new`: when create-new, `write_meta`
(identity and version pragmas) and the schema DDL. -/
def create_schema_on_new (eng : Engine) (f : StoredFile) : StoredFile :=
  if eng.create_new then
    {f with version := USER_VERSION, app_id := some APPLICATION_ID}
  else f

/-! ### The write entry point and its retry policy -/

/-- Outcome of one run of the `SQLiteIO.write` try-body. -/
inductive AttemptOutcome where
  | ok
  | raised
deriving DecidableEq, Repr

/-- Control-flow skeleton of `SQLiteIO.write` (lines 275-295), with the
failure behaviour of the k-th run of the try-body
(`create_schema_on_new(); write_data()`) abstracted by the oracle
`raisesAt`.  Returns the list of attempts actually run — each recorded
as (attempt index, `create_new` flag in force) — and the final
outcome.  On a failure with `retry` unset the method sets `retry`,
forces `create_new`, closes the connection and calls itself; with
`retry` already set it re-raises and the failure leaves the method. -/
def write_control (raisesAt : Nat → Bool) (retryFlag createNew : Bool)
    (k : Nat) : List (Nat × Bool) × AttemptOutcome :=
  if raisesAt k then
    if retryFlag then ([(k, createNew)], .raised)
    else
      let r := write_control raisesAt true true (k + 1)
      ((k, createNew) :: r.1, r.2)
  else ([(k, createNew)], .ok)
termination_by (if retryFlag then 0 else 1)
decreasing_by all_goals simp_all

/-- One run of the `SQLiteIO.write` try-body, together with the lazily
triggered connection establishment (the first `self.ex` inside
`create_schema_on_new`/`write_data` touches the `connection` property):
establish, create the schema when create-new, then `write_data`.
The write path never runs readonly, so the connection is present. -/
def write_attempt (eng : Engine) (file : Option StoredFile) (scene : Scene)
    (worker : Option Worker) (filename : String) :
    ConnResult × StoredFile × WDResult :=
  let c := establish_connection eng file scene
  let f0 := c.conn.getD freshFile
  let f1 := create_schema_on_new c.engine f0
  let wd := write_data worker filename f1.db c.scene
  (c, f1, wd)

/-- Observable outcome of `SQLiteIO.write`: engine flags, the path's
contents afterwards (per-item commits persist even when the attempt
failed), the scene, the emitted signals and, when even the retried
attempt raised, the exception that escapes to `handle_sqlite_errors`. -/
structure WriteOut where
  engine : Engine
  fileAfter : Option StoredFile
  scene : Scene
  log : List Sig
  raised : Option PyErr
deriving Repr

/-- Model of `SQLiteIO.write` (lines 275-295), concrete version: raise
`OperationalError` when readonly (outside the try, so never retried);
otherwise run the try-body; on its failure set `retry`, force
`create_new`, close the connection and re-invoke `write` — whose second
try-body failure re-raises because `retry` is now set. -/
def write (eng : Engine) (file : Option StoredFile) (scene : Scene)
    (worker : Option Worker) (filename : String) : WriteOut :=
  if eng.readonly then
    ⟨eng, file, scene, [],
     some (.operationalError "Attempt to write to a readonly database")⟩
  else
    let a1 := write_attempt eng file scene worker filename
    let fileMid : Option StoredFile := some {a1.2.1 with db := a1.2.2.db}
    match a1.2.2.err with
    | none => ⟨a1.1.engine, fileMid, a1.2.2.scene, a1.2.2.log, none⟩
    | some _ =>
        let eng2 := {a1.1.engine with retry := true, create_new := true}
        let a2 := write_attempt eng2 fileMid a1.2.2.scene worker filename
        let fileEnd : Option StoredFile := some {a2.2.1 with db := a2.2.2.db}
        ⟨a2.1.engine, fileEnd, a2.2.2.scene, a1.2.2.log ++ a2.2.2.log,
         a2.2.2.err⟩

/-! ### Closed forms for a write into a fresh container

`rowOf`, `srowOf`, `freshRows`, `freshSqlar`, `assignScene` and
`expectedData` are specification-side closed forms: the loop of
`write_data`, run over items that have no save identity yet, is proved
equal to them below. -/

/-- The `items` row inserted for an item assigned id `k`. -/
def rowOf (it : NormalItem) (k : Nat) : ItemRow :=
  ⟨k, it.itype, it.x, it.y, it.z, it.scale, it.rotation, it.flip,
   it.payload⟩

/-- The `sqlar` row inserted for a pixmap item assigned id `k`. -/
def srowOf (it : NormalItem) (k : Nat) : SqlarRow :=
  ⟨get_filename_for_export {it with save_id := some k} k, k, 420, 0,
   it.pixBytes.length, it.pixBytes⟩

/-- The `items` rows created by inserting `its` with ids `k`, `k+1`, …. -/
def freshRows : Nat → List NormalItem → List ItemRow
  | _, [] => []
  | k, it :: rest => rowOf it k :: freshRows (k + 1) rest

/-- The `sqlar` rows created by inserting `its` with ids `k`, `k+1`, …
(one per pixmap item). -/
def freshSqlar : Nat → List NormalItem → List SqlarRow
  | _, [] => []
  | k, it :: rest =>
      (if it.hasPixmap then [srowOf it k] else []) ++ freshSqlar (k + 1) rest

/-- The scene after the store wrote ids `k`, `k+1`, … back onto its
saveable items, in order. -/
def assignScene : Nat → Scene → Scene
  | _, [] => []
  | k, .errorItem e :: rest => .errorItem e :: assignScene k rest
  | k, .normal it :: rest =>
      .normal {it with save_id := some k} :: assignScene (k + 1) rest

/-- The map `assignScene` restricted to a list of saveable items. -/
def assignIds : Nat → List NormalItem → List NormalItem
  | _, [] => []
  | k, it :: rest => {it with save_id := some k} :: assignIds (k + 1) rest

/-- The item dictionaries a lossless read is expected to reconstruct
from items stored under ids `k`, `k+1`, …. -/
def expectedData : Nat → List NormalItem → List ItemData
  | _, [] => []
  | k, it :: rest =>
      ⟨k, it.itype, it.x, it.y, it.z, it.scale, it.rotation, it.flip,
       it.payload⟩ :: expectedData (k + 1) rest

/-- The saveable items are instances of exactly two classes:
`BeePixmapItem` (`TYPE = 'pixmap'`, has `pixmap_to_bytes`) and
`BeeTextItem` (`TYPE = 'text'`, no `pixmap_to_bytes`). -/
def ClassShaped (it : NormalItem) : Prop :=
  (it.itype = "pixmap" ∧ it.hasPixmap = true) ∨
  (it.itype = "text" ∧ it.hasPixmap = false)

/-- The `pixmap`-class entries of `expectedData`: the dictionaries the
read pipeline reconstructs from the sqlar join. -/
def pixData : Nat → List NormalItem → List ItemData
  | _, [] => []
  | k, it :: rest =>
      (if it.hasPixmap then
        [⟨k, it.itype, it.x, it.y, it.z, it.scale, it.rotation, it.flip,
          it.payload⟩]
       else []) ++ pixData (k + 1) rest

/-- The `text`-class entries of `expectedData`: the dictionaries the
read pipeline reconstructs from the text SELECT. -/
def textData : Nat → List NormalItem → List ItemData
  | _, [] => []
  | k, it :: rest =>
      (if it.itype = "text" then
        [⟨k, it.itype, it.x, it.y, it.z, it.scale, it.rotation, it.flip,
          it.payload⟩]
       else []) ++ textData (k + 1) rest

/-- Largest id present in a list of `items` rows (0 when empty); the
quantity SQLite bases `lastrowid` assignment on. -/
def maxId (l : List ItemRow) : Nat :=
  l.foldr (fun r acc => Nat.max r.id acc) 0

/-- Sequential composition of the `update_item` calls performed for a
list of already-persisted items, in order. -/
def apply_updates : DB → List NormalItem → DB
  | db, [] => db
  | db, it :: rest => apply_updates (update_item db it (it.save_id.getD 0)) rest

/-- Sequential composition of the `to_delete.remove(item.save_id)`
calls performed for a list of already-persisted items, in order. -/
def remove_ids : List Nat → List NormalItem → List Nat
  | td, [] => td
  | td, it :: rest =>
      remove_ids (td.filter (fun n => n ≠ it.save_id.getD 0)) rest

/-! ### Concrete instances used by the closed theorems -/

/-- A sample saveable item: a pixmap item when `pix`, else a text item. -/
def sampleItem (sid : Option Nat) (pix : Bool) : NormalItem :=
  ⟨if pix then "pixmap" else "text", sid, 1, 2, 3, 4, 5, 1, ⟨[]⟩, pix,
   [7, 8], "png", none⟩

/-- A sample stored pixmap-item row with id `k`. -/
def sampleRow (k : Nat) : ItemRow := ⟨k, "pixmap", 1, 2, 3, 4, 5, 1, ⟨[]⟩⟩

/-- A sample stored text-item row with id `k`. -/
def sampleTextRow (k : Nat) : ItemRow := ⟨k, "text", 1, 2, 3, 4, 5, 1, ⟨[]⟩⟩

/-- A sample stored blob row owned by item `k`. -/
def sampleSqlar (k : Nat) : SqlarRow := ⟨toString k, k, 420, 0, 2, [7, 8]⟩

/-- A worker whose cancellation flag becomes set once `k` items have
been processed: the check after item index `i` sees it set iff
`i + 1 ≥ k`. -/
def workerCancelAfter (k : Nat) : Worker := ⟨fun i => decide (k ≤ i + 1)⟩

/-- Container for the reconciliation scenario: stored identities
{1, 2, 3}, each with its blob. -/
def dbC2 : DB :=
  ⟨[sampleRow 1, sampleRow 2, sampleRow 3],
   [sampleSqlar 1, sampleSqlar 2, sampleSqlar 3]⟩

/-- Scene for the reconciliation scenario: the items persisted as 1 and
3, plus one brand-new item. -/
def sceneC2 : Scene :=
  [.normal (sampleItem (some 1) true), .normal (sampleItem (some 3) true),
   .normal (sampleItem none true)]

/-- Container with stored identities {1, 2} (text items). -/
def dbC5 : DB := ⟨[sampleTextRow 1, sampleTextRow 2], []⟩

/-- Scene with the two items persisted as 1 and 2. -/
def sceneC5 : Scene :=
  [.normal (sampleItem (some 1) false), .normal (sampleItem (some 2) false)]

/-- Scene whose second item carries a stale save identity 7 that is not
present in the container. -/
def sceneC4 : Scene :=
  [.normal (sampleItem none false), .normal (sampleItem (some 7) false)]

/-- A version-1 container whose migration statements raise. -/
def fileC7 : StoredFile := ⟨1, none, dbC5, true⟩

/-- Engine flags of the read path (`load_bee`: readonly, not
create-new). -/
def engC7 : Engine := ⟨false, true, false⟩

/-! ## Theorems -/

/-! ### Basic facts about ids and the scene accessors -/

lemma freshId_eq (db : DB) : freshId db = maxId db.items + 1 := rfl

lemma maxId_cons (a : ItemRow) (t : List ItemRow) :
    maxId (a :: t) = Nat.max a.id (maxId t) := rfl

lemma foldr_max_init (l : List ItemRow) (c : Nat) :
    l.foldr (fun r acc => Nat.max r.id acc) c = Nat.max (maxId l) c := by
  induction l with
  | nil => simp [maxId]
  | cons a t ih => simp [maxId, ih, Nat.max_assoc]

lemma maxId_append_singleton (l : List ItemRow) (r : ItemRow) :
    maxId (l ++ [r]) = Nat.max (maxId l) r.id := by
  unfold maxId
  rw [List.foldr_append, foldr_max_init]
  simp [maxId]

lemma mem_le_maxId {r : ItemRow} {l : List ItemRow} (h : r ∈ l) :
    r.id ≤ maxId l := by
  induction l with
  | nil => cases h
  | cons a t ih =>
      rcases List.mem_cons.mp h with rfl | h'
      · exact Nat.le_max_left _ _
      · exact le_trans (ih h') (Nat.le_max_right _ _)

lemma maxId_map_of_id_eq {f : ItemRow → ItemRow}
    (hf : ∀ a, (f a).id = a.id) (l : List ItemRow) :
    maxId (l.map f) = maxId l := by
  induction l with
  | nil => rfl
  | cons a t ih => simp [maxId_cons, ih, hf]

lemma update_item_id_eq (it : NormalItem) (sid : Nat) (r : ItemRow) :
    ((fun r => if r.id = sid then
        { r with x := it.x, y := it.y, z := it.z, scale := it.scale,
                 rotation := it.rotation, flip := it.flip,
                 data := it.payload }
      else r) r).id = r.id := by
  by_cases h : r.id = sid <;> simp [h]

lemma maxId_update (db : DB) (it : NormalItem) (sid : Nat) :
    maxId (update_item db it sid).items = maxId db.items :=
  maxId_map_of_id_eq (update_item_id_eq it sid) db.items

lemma items_for_save_cons_normal (it : NormalItem) (s : Scene) :
    items_for_save (.normal it :: s) = it :: items_for_save s := rfl

lemma items_for_save_cons_error (e : ErrorItem) (s : Scene) :
    items_for_save (.errorItem e :: s) = items_for_save s := rfl

lemma items_for_save_map_normal (l : List NormalItem) :
    items_for_save (l.map .normal) = l := by
  induction l with
  | nil => rfl
  | cons a t ih => simpa [items_for_save_cons_normal] using ih

lemma clear_save_ids_all_none (s : Scene) :
    ∀ it ∈ items_for_save (clear_save_ids s), it.save_id = none := by
  induction s with
  | nil => intro it h; cases h
  | cons si rest ih =>
      intro it h
      cases si with
      | normal a =>
          rw [clear_save_ids] at h
          simp only [List.map_cons] at h
          rw [items_for_save_cons_normal] at h
          rcases List.mem_cons.mp h with rfl | h'
          · rfl
          · exact ih it h'
      | errorItem e =>
          rw [clear_save_ids] at h
          simp only [List.map_cons] at h
          rw [items_for_save_cons_error] at h
          exact ih it h

/-! ### A write into which every item enters without a save identity -/

lemma write_loop_fresh (scene : Scene) :
    ∀ (db : DB) (td : List Nat) (i : Nat),
    (∀ it ∈ items_for_save scene, it.save_id = none) →
    write_loop none scene i db td =
      ⟨⟨db.items ++ freshRows (maxId db.items + 1) (items_for_save scene),
        db.sqlar ++ freshSqlar (maxId db.items + 1) (items_for_save scene)⟩,
       assignScene (maxId db.items + 1) scene, td, [], none⟩ := by
  induction scene with
  | nil =>
      intro db td i _
      simp [write_loop, items_for_save, freshRows, freshSqlar, assignScene]
  | cons si rest ih =>
      intro db td i h
      cases si with
      | errorItem e =>
          rw [items_for_save_cons_error]
          have hrest : ∀ it ∈ items_for_save rest, it.save_id = none := by
            intro it hit
            exact h it (by rw [items_for_save_cons_error]; exact hit)
          simp only [write_loop]
          rw [ih db td i hrest]
          rfl
      | normal it =>
          have h0 : it.save_id = none :=
            h it (by rw [items_for_save_cons_normal]; exact List.mem_cons_self _ _)
          have hrest : ∀ a ∈ items_for_save rest, a.save_id = none := by
            intro a ha
            exact h a (by rw [items_for_save_cons_normal]; exact List.mem_cons_of_mem _ ha)
          have ht : truthy it.save_id = false := by rw [h0]; rfl
          have hins : insert_item db it =
              (⟨db.items ++ [rowOf it (maxId db.items + 1)],
                db.sqlar ++ (if it.hasPixmap then
                  [srowOf it (maxId db.items + 1)] else [])⟩,
               {it with save_id := some (maxId db.items + 1)}) := by
            by_cases hp : it.hasPixmap <;>
              simp [insert_item, freshId_eq, rowOf, srowOf, hp]
          rw [items_for_save_cons_normal]
          simp only [write_loop, ht, Bool.false_eq_true, if_false, hins]
          rw [ih ⟨db.items ++ [rowOf it (maxId db.items + 1)],
                 db.sqlar ++ (if it.hasPixmap then
                   [srowOf it (maxId db.items + 1)] else [])⟩ td (i + 1) hrest]
          have hmax : maxId (db.items ++ [rowOf it (maxId db.items + 1)])
              = maxId db.items + 1 := by
            rw [maxId_append_singleton]
            exact Nat.max_eq_right (Nat.le_succ _)
          simp only [hmax]
          simp [freshRows, freshSqlar, assignScene, List.append_assoc]

lemma delete_items_nil (db : DB) : delete_items db [] = db := by
  simp [delete_items]

lemma compute_to_delete_empty (scene : Scene) :
    compute_to_delete DB.empty scene = [] := rfl

lemma write_data_fresh (scene : Scene) (fname : String)
    (h : ∀ it ∈ items_for_save scene, it.save_id = none) :
    write_data none fname DB.empty scene =
      ⟨⟨freshRows 1 (items_for_save scene), freshSqlar 1 (items_for_save scene)⟩,
       assignScene 1 scene, [], none⟩ := by
  simp only [write_data, compute_to_delete_empty]
  rw [write_loop_fresh scene DB.empty [] 0 h]
  simp [delete_items_nil, DB.empty, maxId]

/-! ### The read pipeline on a freshly written container -/

lemma read_loop_none (pl : List Nat → Bool) (fname : String) :
    ∀ (rows : List RowTuple) (i : Nat),
    read_loop pl none fname rows i = ⟨rows.map (mkItemData pl), []⟩ := by
  intro rows
  induction rows with
  | nil => intro i; rfl
  | cons row rest ih => intro i; simp [read_loop, ih (i + 1)]

lemma assignIds_cons (k : Nat) (it : NormalItem) (rest : List NormalItem) :
    assignIds k (it :: rest) =
      {it with save_id := some k} :: assignIds (k + 1) rest := rfl

lemma items_for_save_assignScene (s : Scene) :
    ∀ k, items_for_save (assignScene k s) = assignIds k (items_for_save s) := by
  induction s with
  | nil => intro k; rfl
  | cons si rest ih =>
      intro k
      cases si with
      | normal it =>
          rw [items_for_save_cons_normal]
          simp only [assignScene, items_for_save_cons_normal, assignIds_cons,
            ih (k + 1)]
      | errorItem e =>
          rw [items_for_save_cons_error]
          simp only [assignScene, items_for_save_cons_error, ih k]

lemma assignIds_map_save_id (its : List NormalItem) :
    ∀ k, (assignIds k its).map (·.save_id) = (List.range' k its.length).map some := by
  induction its with
  | nil => intro k; rfl
  | cons it rest ih =>
      intro k
      simp only [assignIds_cons, List.map_cons, List.length_cons,
        List.range'_succ, ih (k + 1)]

lemma assignIds_length (its : List NormalItem) :
    ∀ k, (assignIds k its).length = its.length := by
  induction its with
  | nil => intro k; rfl
  | cons it rest ih => intro k; simp [assignIds_cons, ih (k + 1)]

lemma freshRows_map_id (its : List NormalItem) :
    ∀ k, (freshRows k its).map (·.id) = List.range' k its.length := by
  induction its with
  | nil => intro k; rfl
  | cons it rest ih =>
      intro k
      simp only [freshRows, List.map_cons, List.length_cons, List.range'_succ,
        ih (k + 1), rowOf]

lemma freshSqlar_item_id_ge (its : List NormalItem) :
    ∀ k, ∀ s ∈ freshSqlar k its, k ≤ s.item_id := by
  induction its with
  | nil => intro k s hs; cases hs
  | cons it rest ih =>
      intro k s hs
      rw [freshSqlar, List.mem_append] at hs
      rcases hs with hs | hs
      · by_cases hp : it.hasPixmap
        · simp only [hp, if_true, List.mem_singleton] at hs
          subst hs; exact le_refl _
        · simp [hp] at hs
      · exact le_trans (Nat.le_succ _) (ih (k + 1) s hs)

/-- The join half of `read_rows`, specialised to a freshly written
container, maps to exactly the pixmap-class dictionaries. -/
lemma join_fresh_mapped (pl : List Nat → Bool) (its : List NormalItem) :
    ∀ k, (∀ it ∈ its, it.hasPixmap = true → pl it.pixBytes = true) →
    ((freshSqlar k its).filterMap (fun s =>
        ((freshRows k its).find? (fun r => r.id = s.item_id)).map (fun r =>
          (⟨r.id, r.itype, r.x, r.y, r.z, r.scale, r.rotation, r.flip,
            r.data, some s.data⟩ : RowTuple)))).map (mkItemData pl)
      = pixData k its := by
  induction its with
  | nil => intro k _; rfl
  | cons it rest ih =>
      intro k hLoad
      have hLoadRest : ∀ a ∈ rest, a.hasPixmap = true → pl a.pixBytes = true :=
        fun a ha => hLoad a (List.mem_cons_of_mem _ ha)
      have hskip : (freshSqlar (k + 1) rest).filterMap (fun s =>
          ((rowOf it k :: freshRows (k + 1) rest).find?
              (fun r => r.id = s.item_id)).map (fun r =>
            (⟨r.id, r.itype, r.x, r.y, r.z, r.scale, r.rotation, r.flip,
              r.data, some s.data⟩ : RowTuple)))
          = (freshSqlar (k + 1) rest).filterMap (fun s =>
          ((freshRows (k + 1) rest).find? (fun r => r.id = s.item_id)).map (fun r =>
            (⟨r.id, r.itype, r.x, r.y, r.z, r.scale, r.rotation, r.flip,
              r.data, some s.data⟩ : RowTuple))) := by
        apply List.filterMap_congr
        intro s hs
        rw [List.find?_cons_of_neg]
        have := freshSqlar_item_id_ge rest (k + 1) s hs
        simp only [rowOf, decide_eq_true_eq]
        omega
      by_cases hp : it.hasPixmap
      · simp only [freshSqlar, pixData, freshRows, hp, if_true,
          List.singleton_append, List.filterMap_cons]
        rw [List.find?_cons_of_pos _ (by simp [rowOf, srowOf])]
        simp only [Option.map_some']
        rw [hskip]
        simp only [List.map_cons, ih (k + 1) hLoadRest]
        congr 1
        by_cases hty : it.itype = "pixmap"
        · simp [mkItemData, rowOf, srowOf, hty, hLoad it (List.mem_cons_self _ _) hp]
        · simp [mkItemData, rowOf, srowOf, hty]
      · simp only [freshSqlar, pixData, freshRows, hp, Bool.false_eq_true,
          if_false, List.nil_append]
        rw [hskip, ih (k + 1) hLoadRest]

/-- The text half of `read_rows`, specialised to a freshly written
container, maps to exactly the text-class dictionaries. -/
lemma text_fresh_mapped (pl : List Nat → Bool) (its : List NormalItem) :
    ∀ k, (((freshRows k its).filter (fun r => r.itype = "text")).map (fun r =>
        (⟨r.id, r.itype, r.x, r.y, r.z, r.scale, r.rotation, r.flip,
          r.data, none⟩ : RowTuple))).map (mkItemData pl)
      = textData k its := by
  induction its with
  | nil => intro k; rfl
  | cons it rest ih =>
      intro k
      rw [freshRows, textData]
      by_cases hty : it.itype = "text"
      · have : ¬ it.itype = "pixmap" := by rw [hty]; decide
        simp [List.filter_cons, rowOf, hty, ih (k + 1), mkItemData, this]
      · simp [List.filter_cons, rowOf, hty, ih (k + 1)]

lemma expectedData_length (its : List NormalItem) :
    ∀ k, (expectedData k its).length = its.length := by
  induction its with
  | nil => intro k; rfl
  | cons it rest ih => intro k; simp [expectedData, ih (k + 1)]

/-- Partition permutation: the pixmap-class dictionaries followed by
the text-class ones are a permutation of all of them, provided every
item belongs to exactly one of the two classes. -/
lemma pix_text_perm (its : List NormalItem) :
    ∀ k, (∀ it ∈ its, ClassShaped it) →
    (pixData k its ++ textData k its).Perm (expectedData k its) := by
  induction its with
  | nil => intro k _; rfl
  | cons it rest ih =>
      intro k hWF
      have hWFrest : ∀ a ∈ rest, ClassShaped a :=
        fun a ha => hWF a (List.mem_cons_of_mem _ ha)
      rcases hWF it (List.mem_cons_self _ _) with ⟨hty, hpix⟩ | ⟨hty, hpix⟩
      · have hnt : ¬ it.itype = "text" := by rw [hty]; decide
        simp only [pixData, textData, expectedData, hpix, if_true, hnt,
          Bool.false_eq_true, if_false, List.nil_append, List.singleton_append,
          List.cons_append]
        exact (ih (k + 1) hWFrest).cons _
      · simp only [pixData, textData, expectedData, hpix, hty, if_true,
          Bool.false_eq_true, if_false, List.nil_append, List.singleton_append]
        exact List.perm_middle.trans ((ih (k + 1) hWFrest).cons _)

/-! ### Preservation of stored rows across the write loop -/

lemma mem_update_item {db : DB} {m : ItemRow} (it : NormalItem) (sid : Nat)
    (h : m ∈ db.items)
    (hfix : m.id = sid →
      ({ m with
          x := it.x, y := it.y, z := it.z, scale := it.scale,
          rotation := it.rotation, flip := it.flip, data := it.payload } = m)) :
    m ∈ (update_item db it sid).items := by
  simp only [update_item]
  refine List.mem_map.mpr ⟨m, h, ?_⟩
  show (if m.id = sid then
      ({ m with
          x := it.x, y := it.y, z := it.z, scale := it.scale,
          rotation := it.rotation, flip := it.flip,
          data := it.payload } : ItemRow)
    else m) = m
  by_cases hm : m.id = sid
  · rw [if_pos hm]
    exact hfix hm
  · rw [if_neg hm]

lemma write_loop_td_subset (w : Option Worker) (scene : Scene) :
    ∀ (i : Nat) (db : DB) (td : List Nat),
    (write_loop w scene i db td).to_delete ⊆ td := by
  induction scene with
  | nil => intro i db td; simp [write_loop]
  | cons si rest ih =>
      intro i db td
      cases si with
      | errorItem e => simpa [write_loop] using ih i db td
      | normal it =>
          by_cases ht : truthy it.save_id
          · by_cases hm : it.save_id.getD 0 ∈ td
            · cases w with
              | none =>
                  simp only [write_loop, ht, if_true, hm]
                  exact subset_trans (ih _ _ _) (List.filter_sublist _).subset
              | some wk =>
                  by_cases hc : wk.canceled i
                  · simp only [write_loop, ht, if_true, hm, hc]
                    exact (List.filter_sublist _).subset
                  · simp only [write_loop, ht, if_true, hm, hc,
                      Bool.false_eq_true, if_false]
                    exact subset_trans (ih _ _ _) (List.filter_sublist _).subset
            · simp [write_loop, ht, hm]
          · cases w with
            | none =>
                simp only [write_loop, ht, Bool.false_eq_true, if_false]
                exact ih _ _ _
            | some wk =>
                by_cases hc : wk.canceled i
                · simp [write_loop, ht, hc]
                · simp only [write_loop, ht, hc, Bool.false_eq_true, if_false]
                  exact ih _ _ _

lemma write_loop_preserves_row (w : Option Worker) (scene : Scene) :
    ∀ (i : Nat) (db : DB) (td : List Nat) (m : ItemRow), m ∈ db.items →
    (∀ it ∈ items_for_save scene, truthy it.save_id = true →
       it.save_id = some m.id →
       ({ m with
           x := it.x, y := it.y, z := it.z, scale := it.scale,
           rotation := it.rotation, flip := it.flip, data := it.payload } = m)) →
    m ∈ (write_loop w scene i db td).db.items := by
  induction scene with
  | nil => intro i db td m hm _; simpa [write_loop] using hm
  | cons si rest ih =>
      intro i db td m hm hcond
      cases si with
      | errorItem e =>
          simp only [write_loop]
          exact ih i db td m hm (fun it hit => hcond it
            (by rw [items_for_save_cons_error]; exact hit))
      | normal it =>
          have hcondrest : ∀ a ∈ items_for_save rest, truthy a.save_id = true →
              a.save_id = some m.id →
              ({ m with
                  x := a.x, y := a.y, z := a.z, scale := a.scale,
                  rotation := a.rotation, flip := a.flip, data := a.payload } = m) :=
            fun a ha => hcond a
              (by rw [items_for_save_cons_normal]; exact List.mem_cons_of_mem _ ha)
          have hhead := hcond it
            (by rw [items_for_save_cons_normal]; exact List.mem_cons_self _ _)
          by_cases ht : truthy it.save_id
          · have hmem1 : m ∈ (update_item db it (it.save_id.getD 0)).items := by
              apply mem_update_item it _ hm
              intro hid
              apply hhead ht
              cases hsv : it.save_id with
              | none => rw [hsv] at ht; simp [truthy] at ht
              | some v => rw [hsv] at hid; simp at hid; rw [hid]
            by_cases hmtd : it.save_id.getD 0 ∈ td
            · cases w with
              | none =>
                  simp only [write_loop, ht, if_true, hmtd]
                  exact ih _ _ _ m hmem1 hcondrest
              | some wk =>
                  by_cases hc : wk.canceled i
                  · simpa [write_loop, ht, hmtd, hc] using hmem1
                  · simp only [write_loop, ht, if_true, hmtd, hc,
                      Bool.false_eq_true, if_false]
                    exact ih _ _ _ m hmem1 hcondrest
            · simpa [write_loop, ht, hmtd] using hmem1
          · have hmem2 : m ∈ (insert_item db it).1.items := by
              by_cases hp : it.hasPixmap <;>
                simp [insert_item, hp, List.mem_append, hm]
            cases w with
            | none =>
                simp only [write_loop, ht, Bool.false_eq_true, if_false]
                exact ih _ _ _ m hmem2 hcondrest
            | some wk =>
                by_cases hc : wk.canceled i
                · simpa [write_loop, ht, hc] using hmem2
                · simp only [write_loop, ht, hc, Bool.false_eq_true, if_false]
                  exact ih _ _ _ m hmem2 hcondrest

lemma mem_items_by_type_error {e : ErrorItem} {scene : Scene}
    (h : SceneItem.errorItem e ∈ scene) : e ∈ items_by_type_error scene := by
  rw [items_by_type_error, List.mem_filterMap]
  exact ⟨.errorItem e, h, rfl⟩

lemma not_mem_compute_to_delete {db : DB} {scene : Scene} {e : ErrorItem}
    {N : Nat} (he : SceneItem.errorItem e ∈ scene)
    (hN : e.original_save_id = some N) :
    N ∉ compute_to_delete db scene := by
  intro hmem
  have hk : some N ∈ (items_by_type_error scene).map (·.original_save_id) := by
    rw [← hN]
    exact List.mem_map_of_mem _ (mem_items_by_type_error he)
  simp only [compute_to_delete, List.mem_filter, decide_eq_true_eq] at hmem
  exact hmem.2 hk

lemma mem_delete_items {db : DB} {td : List Nat} {m : ItemRow}
    (h : m ∈ db.items) (hid : ¬ m.id ∈ td) :
    m ∈ (delete_items db td).items := by
  simp only [delete_items, List.mem_filter, decide_not]
  exact ⟨h, by simpa using hid⟩

lemma write_loop_fresh_append (pre : List NormalItem) (rest : Scene) :
    ∀ (db : DB) (td : List Nat) (i : Nat),
    (∀ it ∈ pre, it.save_id = none) →
    write_loop none (pre.map .normal ++ rest) i db td =
      (let db' : DB := ⟨db.items ++ freshRows (maxId db.items + 1) pre,
                      db.sqlar ++ freshSqlar (maxId db.items + 1) pre⟩
       let r := write_loop none rest (i + pre.length) db' td
       ⟨r.db, (assignIds (maxId db.items + 1) pre).map .normal ++ r.sceneOut,
        r.to_delete, r.log, r.err⟩) := by
  induction pre with
  | nil =>
      intro db td i _
      cases hres : write_loop none rest i db td <;>
        simp [freshRows, freshSqlar, assignIds, hres]
  | cons it pr ih =>
      intro db td i h
      have h0 : it.save_id = none := h it (List.mem_cons_self _ _)
      have hpr : ∀ a ∈ pr, a.save_id = none :=
        fun a ha => h a (List.mem_cons_of_mem _ ha)
      have ht : truthy it.save_id = false := by rw [h0]; rfl
      have hins : insert_item db it =
          (⟨db.items ++ [rowOf it (maxId db.items + 1)],
            db.sqlar ++ (if it.hasPixmap then
              [srowOf it (maxId db.items + 1)] else [])⟩,
           {it with save_id := some (maxId db.items + 1)}) := by
        by_cases hp : it.hasPixmap <;>
          simp [insert_item, freshId_eq, rowOf, srowOf, hp]
      simp only [List.map_cons, List.cons_append, write_loop, ht,
        Bool.false_eq_true, if_false, hins, List.append_eq]
      rw [ih ⟨db.items ++ [rowOf it (maxId db.items + 1)],
             db.sqlar ++ (if it.hasPixmap then
               [srowOf it (maxId db.items + 1)] else [])⟩ td (i + 1) hpr]
      have hmax : maxId (db.items ++ [rowOf it (maxId db.items + 1)])
          = maxId db.items + 1 := by
        rw [maxId_append_singleton]
        exact Nat.max_eq_right (Nat.le_succ _)
      simp only [hmax]
      have harith : i + 1 + pr.length = i + (pr.length + 1) := by omega
      simp [freshRows, freshSqlar, assignIds, List.append_assoc, harith]

lemma mem_freshRows_id_bounds {r : ItemRow} {k : Nat} {its : List NormalItem}
    (h : r ∈ freshRows k its) : k ≤ r.id ∧ r.id < k + its.length := by
  have : r.id ∈ (freshRows k its).map (·.id) := List.mem_map_of_mem _ h
  rw [freshRows_map_id] at this
  exact List.mem_range'_1.mp this

lemma update_item_no_match (db : DB) (it : NormalItem) (sid : Nat)
    (h : ∀ r ∈ db.items, r.id ≠ sid) : update_item db it sid = db := by
  simp only [update_item]
  cases db with
  | mk rows sq =>
      congr 1
      have : ∀ r ∈ rows, (if r.id = sid then
          ({ r with
              x := it.x, y := it.y, z := it.z, scale := it.scale,
              rotation := it.rotation, flip := it.flip,
              data := it.payload } : ItemRow)
        else r) = id r := by
        intro r hr
        simp [h r hr]
      rw [List.map_congr_left this, List.map_id]

/-- C4 (amended) — The write pipeline is not atomic: every per-item
insert or update commits individually, so a run that raises partway
through the loop — here, the `KeyError` from the stale identity of the
last item — leaves the inserts performed for all preceding fresh items
committed and visible in the container. -/
theorem writeData_partial_commits_C4_amended (pre : List NormalItem)
    (stale : NormalItem) (s : Nat) (fname : String)
    (hpre : ∀ it ∈ pre, it.save_id = none)
    (hs : stale.save_id = some s) (hs0 : s ≠ 0)
    (hbig : pre.length < s) :
    (write_data none fname DB.empty ((pre ++ [stale]).map .normal)).err
      = some (.keyError s) ∧
    (write_data none fname DB.empty ((pre ++ [stale]).map .normal)).db.items
      = freshRows 1 pre := by
  have ht : truthy (some s) = true := by
    simp [truthy, hs0]
  have hnomatch : ∀ r ∈ (freshRows 1 pre), r.id ≠ s := by
    intro r hr
    have := (mem_freshRows_id_bounds hr).2
    omega
  simp only [write_data, compute_to_delete_empty, List.map_append,
    List.map_cons, List.map_nil]
  rw [write_loop_fresh_append pre [.normal stale] DB.empty [] 0 hpre]
  simp only [write_loop, ht, if_true, hs, Option.getD_some, List.not_mem_nil,
    if_false, DB.empty, maxId, List.nil_append]
  rw [update_item_no_match _ stale s (by simpa using hnomatch)]
  simp

/-- Witness for C4 (amended): one fresh item followed by an item with
stale identity 7. -/
theorem writeData_partial_commits_C4_amended_witness :
    ((∀ it ∈ [sampleItem none false], it.save_id = none) ∧
     (sampleItem (some 7) false).save_id = some 7 ∧ (7 : Nat) ≠ 0 ∧
     [sampleItem none false].length < 7) ∧
    ((write_data none "c.bee" DB.empty
        (([sampleItem none false] ++ [sampleItem (some 7) false]).map .normal)).err
       = some (.keyError 7) ∧
     (write_data none "c.bee" DB.empty
        (([sampleItem none false] ++ [sampleItem (some 7) false]).map .normal)).db.items
       = freshRows 1 [sampleItem none false]) :=
  ⟨⟨by decide, by decide, by decide, by decide⟩,
   writeData_partial_commits_C4_amended [sampleItem none false]
     (sampleItem (some 7) false) 7 "c.bee"
     (by decide) (by decide) (by decide) (by decide)⟩

/-- C7 (amended) — A migration failure during connection establishment
is caught inside `_establish_connection` itself: the engine
automatically forces `create_new = True` and re-establishes the
connection, on the read path as much as the write path; no failure is
surfaced to the caller at connection time. -/
theorem migration_failure_fallback_C7_amended (eng : Engine)
    (f : StoredFile) (scene : Scene)
    (hcn : eng.create_new = false)
    (hv : f.version < USER_VERSION) (hraise : f.migrationRaises = true) :
    establish_connection eng (some f) scene
      = establish_connection {eng with create_new := true} (some f) scene ∧
    (establish_connection eng (some f) scene).engine.create_new = true := by
  have hmig : migrate f = .error () := by
    simp [migrate, Nat.not_le.mpr hv, hraise]
  have h1 : establish_connection eng (some f) scene
      = establish_connection {eng with create_new := true} (some f) scene := by
    conv_lhs => rw [establish_connection]
    simp [hcn, hmig]
  refine ⟨h1, ?_⟩
  rw [h1, establish_connection]
  by_cases hro : eng.readonly <;> simp [hro]

/-- Witness for C7 (amended) at the version-1 file whose migration
raises, opened on the readonly read path. -/
theorem migration_failure_fallback_C7_amended_witness :
    (engC7.create_new = false ∧ fileC7.version < USER_VERSION ∧
     fileC7.migrationRaises = true) ∧
    (establish_connection engC7 (some fileC7) sceneC5
       = establish_connection {engC7 with create_new := true} (some fileC7) sceneC5 ∧
     (establish_connection engC7 (some fileC7) sceneC5).engine.create_new = true) :=
  ⟨⟨by decide, by decide, by decide⟩,
   migration_failure_fallback_C7_amended engC7 fileC7 sceneC5
     (by decide) (by decide) (by decide)⟩

lemma read_loop_cancel (pl : List Nat → Bool) (fname : String) (w : Worker) :
    ∀ (rows : List RowTuple) (k i : Nat),
    1 ≤ k → k ≤ rows.length →
    (∀ j, w.canceled (i + j) = decide (k ≤ j + 1)) →
    read_loop pl (some w) fname rows i =
      ⟨(rows.take k).map (mkItemData pl),
       (List.range' i k).map .progress ++ [.finished "" []]⟩ := by
  intro rows
  induction rows with
  | nil =>
      intro k i hk hkn _
      exact absurd hkn (by simp; omega)
  | cons row rest ih =>
      intro k i hk hkn hcan
      obtain ⟨k', rfl⟩ : ∃ k', k = k' + 1 := ⟨k - 1, by omega⟩
      rcases Nat.eq_zero_or_pos k' with h0 | hpos
      · subst h0
        have hc : w.canceled i = true := by
          have := hcan 0
          simpa using this
        simp [read_loop, hc, List.range'_succ]
      · have hc : w.canceled i = false := by
          have := hcan 0
          rw [Nat.add_zero] at this
          rw [this]
          simp
          omega
        have hcan' : ∀ j, w.canceled (i + 1 + j) = decide (k' ≤ j + 1) := by
          intro j
          have := hcan (j + 1)
          rw [show i + (j + 1) = i + 1 + j by omega] at this
          rw [this]
          exact decide_eq_decide.mpr (by omega)
        have hlen : k' ≤ rest.length := by
          simp at hkn; omega
        simp only [read_loop, hc, Bool.false_eq_true, if_false]
        rw [ih k' (i + 1) hpos hlen hcan']
        simp [List.take_succ_cons, List.range'_succ]

/-- C9 — Read cancellation: over the `n` stored records of a container,
a worker whose cancellation flag becomes set once `k` records have been
processed makes `read` queue exactly the first `k` reconstructed item
dictionaries, and the operation ends with a completion signal carrying
an empty error list (and an empty filename); the remaining `n − k`
records are not processed. -/
theorem read_cancellation_C9 (db : DB) (pl : List Nat → Bool) (w : Worker)
    (fname : String) (k : Nat)
    (hk : 1 ≤ k) (hkn : k ≤ (read_rows db).length)
    (hw : ∀ i, w.canceled i = decide (k ≤ i + 1)) :
    (read pl (some w) fname db).queued
      = ((read_rows db).take k).map (mkItemData pl) ∧
    (read pl (some w) fname db).queued.length = k ∧
    (read pl (some w) fname db).log
      = Sig.begin_processing (read_rows db).length ::
        ((List.range' 0 k).map .progress ++ [.finished "" []]) := by
  have h := read_loop_cancel pl fname w (read_rows db) k 0 hk hkn
    (by intro j; simpa using hw j)
  simp only [read]
  rw [h]
  refine ⟨rfl, ?_, by simp⟩
  rw [List.length_map, List.length_take]
  exact Nat.min_eq_left hkn

/-- Witness for C9: a container with two stored text records, cancelled
after the first record. -/
theorem read_cancellation_C9_witness :
    (1 ≤ 1 ∧ 1 ≤ (read_rows dbC5).length ∧
     (∀ i, (workerCancelAfter 1).canceled i = decide (1 ≤ i + 1))) ∧
    ((read (fun _ => true) (some (workerCancelAfter 1)) "d.bee" dbC5).queued
       = ((read_rows dbC5).take 1).map (mkItemData (fun _ => true)) ∧
     (read (fun _ => true) (some (workerCancelAfter 1)) "d.bee" dbC5).queued.length = 1 ∧
     (read (fun _ => true) (some (workerCancelAfter 1)) "d.bee" dbC5).log
       = Sig.begin_processing (read_rows dbC5).length ::
         ((List.range' 0 1).map .progress ++ [.finished "" []])) :=
  ⟨⟨by decide, by decide, fun i => rfl⟩,
   read_cancellation_C9 dbC5 (fun _ => true) (workerCancelAfter 1) "d.bee" 1
     (by decide) (by decide) (fun i => rfl)⟩

lemma establish_create_new (eng : Engine) (file : Option StoredFile)
    (scene : Scene) (hcn : eng.create_new = true) (hro : eng.readonly = false) :
    establish_connection eng file scene
      = ⟨eng, none, some freshFile, clear_save_ids scene⟩ := by
  rw [establish_connection]
  simp [hcn, hro]

lemma items_for_save_clear (s : Scene) :
    items_for_save (clear_save_ids s)
      = (items_for_save s).map (fun it => {it with save_id := none}) := by
  induction s with
  | nil => rfl
  | cons si rest ih =>
      cases si with
      | normal it =>
          have hc : clear_save_ids (SceneItem.normal it :: rest)
              = SceneItem.normal {it with save_id := none} :: clear_save_ids rest :=
            rfl
          rw [hc, items_for_save_cons_normal, items_for_save_cons_normal,
            List.map_cons, ih]
      | errorItem e =>
          have hc : clear_save_ids (SceneItem.errorItem e :: rest)
              = SceneItem.errorItem e :: clear_save_ids rest := rfl
          rw [hc, items_for_save_cons_error, items_for_save_cons_error, ih]

/-- C10 — Forced create-new semantics reset identities: establishing a
connection with `create_new` set clears every saveable item's save
identity before any row is written; the subsequent write assigns every
item a fresh store identity (`1..n`, pairwise distinct, written back
onto the scene and equal to the stored ids), and the outcome is
independent of whatever identities the items carried before — no
identity from the previous container survives into the rebuilt one. -/
theorem create_new_write_C10 (eng : Engine) (file : Option StoredFile)
    (scene : Scene) (fname : String)
    (hcn : eng.create_new = true) (hro : eng.readonly = false) :
    (∀ it ∈ items_for_save (establish_connection eng file scene).scene,
        it.save_id = none) ∧
    (write eng file scene none fname).raised = none ∧
    (items_for_save (write eng file scene none fname).scene).map (·.save_id)
      = (List.range' 1 (items_for_save scene).length).map some ∧
    ((items_for_save (write eng file scene none fname).scene).map
        (·.save_id)).Nodup ∧
    ((write eng file scene none fname).fileAfter.map
        (fun f => f.db.items.map (·.id)))
      = some (List.range' 1 (items_for_save scene).length) ∧
    (∀ scene₂, clear_save_ids scene₂ = clear_save_ids scene →
        write eng file scene₂ none fname = write eng file scene none fname) := by
  have hest := establish_create_new eng file scene hcn hro
  have hclr := clear_save_ids_all_none scene
  have hwd := write_data_fresh (clear_save_ids scene) fname hclr
  have hlen : (items_for_save (clear_save_ids scene)).length
      = (items_for_save scene).length := by
    rw [items_for_save_clear, List.length_map]
  have hw : write eng file scene none fname =
      ⟨eng, some ⟨USER_VERSION, some APPLICATION_ID,
         ⟨freshRows 1 (items_for_save (clear_save_ids scene)),
          freshSqlar 1 (items_for_save (clear_save_ids scene))⟩, false⟩,
       assignScene 1 (clear_save_ids scene), [], none⟩ := by
    simp [write, hro, write_attempt, hest, create_schema_on_new, hcn,
      freshFile, hwd]
  refine ⟨?_, ?_, ?_, ?_, ?_, ?_⟩
  · rw [hest]; exact hclr
  · rw [hw]
  · rw [hw]
    simp only
    rw [items_for_save_assignScene, assignIds_map_save_id, hlen]
  · rw [hw]
    simp only
    rw [items_for_save_assignScene, assignIds_map_save_id]
    exact (List.nodup_range' _ _).map (Option.some_injective Nat)
  · rw [hw]
    simp only [Option.map_some']
    rw [freshRows_map_id, hlen]
  · intro scene₂ hsc
    have hest₂ := establish_create_new eng file scene₂ hcn hro
    simp only [write, hro, Bool.false_eq_true, if_false, write_attempt,
      hest, hest₂, hsc]

/-- Witness for C10: the create-new engine, no existing file, and the
scene whose items carry old identities 1 and 2. -/
theorem create_new_write_C10_witness :
    ((⟨true, false, false⟩ : Engine).create_new = true ∧
     (⟨true, false, false⟩ : Engine).readonly = false) ∧
    ((∀ it ∈ items_for_save
        (establish_connection ⟨true, false, false⟩ none sceneC5).scene,
        it.save_id = none) ∧
     (write ⟨true, false, false⟩ none sceneC5 none "e.bee").raised = none ∧
     (items_for_save (write ⟨true, false, false⟩ none sceneC5 none
        "e.bee").scene).map (·.save_id)
       = (List.range' 1 (items_for_save sceneC5).length).map some ∧
     ((items_for_save (write ⟨true, false, false⟩ none sceneC5 none
        "e.bee").scene).map (·.save_id)).Nodup ∧
     ((write ⟨true, false, false⟩ none sceneC5 none "e.bee").fileAfter.map
        (fun f => f.db.items.map (·.id)))
       = some (List.range' 1 (items_for_save sceneC5).length) ∧
     (∀ scene₂, clear_save_ids scene₂ = clear_save_ids sceneC5 →
        write ⟨true, false, false⟩ none scene₂ none "e.bee"
          = write ⟨true, false, false⟩ none sceneC5 none "e.bee")) :=
  ⟨⟨rfl, rfl⟩,
   create_new_write_C10 ⟨true, false, false⟩ none sceneC5 "e.bee" rfl rfl⟩

lemma write_loop_scene_keeps (w : Option Worker) (scene : Scene) :
    ∀ (i : Nat) (db : DB) (td : List Nat) (it : NormalItem),
    SceneItem.normal it ∈ scene → truthy it.save_id = true →
    SceneItem.normal it ∈ (write_loop w scene i db td).sceneOut := by
  induction scene with
  | nil => intro i db td it hmem _; cases hmem
  | cons si rest ih =>
      intro i db td it hmem ht
      rcases List.mem_cons.mp hmem with heq | hmem'
      · subst heq
        simp only [write_loop, ht, if_true]
        by_cases hmtd : it.save_id.getD 0 ∈ td
        · cases w with
          | none => simp [hmtd]
          | some wk =>
              by_cases hc : wk.canceled i <;> simp [hmtd, hc]
        · simp [hmtd]
      · cases si with
        | errorItem e =>
            simp only [write_loop]
            exact List.mem_cons_of_mem _ (ih i db td it hmem' ht)
        | normal a =>
            by_cases ta : truthy a.save_id
            · by_cases hmtd : a.save_id.getD 0 ∈ td
              · cases w with
                | none =>
                    simp only [write_loop, ta, if_true, hmtd]
                    exact List.mem_cons_of_mem _ (ih _ _ _ it hmem' ht)
                | some wk =>
                    by_cases hc : wk.canceled i
                    · simp only [write_loop, ta, if_true, hmtd, hc]
                      exact List.mem_cons_of_mem _ hmem'
                    · simp only [write_loop, ta, if_true, hmtd, hc,
                        Bool.false_eq_true, if_false]
                      exact List.mem_cons_of_mem _ (ih _ _ _ it hmem' ht)
              · simp only [write_loop, ta, if_true, hmtd, if_false]
                exact List.mem_cons_of_mem _ hmem'
            · cases w with
              | none =>
                  simp only [write_loop, ta, Bool.false_eq_true, if_false]
                  exact List.mem_cons_of_mem _ (ih _ _ _ it hmem' ht)
              | some wk =>
                  by_cases hc : wk.canceled i
                  · simp only [write_loop, ta, hc, Bool.false_eq_true, if_false]
                    exact List.mem_cons_of_mem _ hmem'
                  · simp only [write_loop, ta, hc, Bool.false_eq_true, if_false]
                    exact List.mem_cons_of_mem _ (ih _ _ _ it hmem' ht)

lemma write_loop_removes_sid (scene : Scene) :
    ∀ (i : Nat) (db : DB) (td : List Nat) (it : NormalItem) (s : Nat),
    SceneItem.normal it ∈ scene → it.save_id = some s → s ≠ 0 →
    (write_loop none scene i db td).err = none →
    s ∉ (write_loop none scene i db td).to_delete := by
  induction scene with
  | nil => intro i db td it s hmem _ _ _; cases hmem
  | cons si rest ih =>
      intro i db td it s hmem hs hs0 herr
      rcases List.mem_cons.mp hmem with heq | hmem'
      · subst heq
        have ht : truthy it.save_id = true := by rw [hs]; simp [truthy, hs0]
        by_cases hmtd : it.save_id.getD 0 ∈ td
        · simp only [write_loop, ht, if_true, hmtd] at herr ⊢
          intro hmem2
          have hsub := write_loop_td_subset none rest (i + 1)
            (update_item db it (it.save_id.getD 0))
            (td.filter (fun n => n ≠ it.save_id.getD 0))
          have := hsub hmem2
          rw [List.mem_filter] at this
          have hgd : it.save_id.getD 0 = s := by rw [hs]; rfl
          rw [hgd] at this
          simp at this
        · simp only [write_loop, ht, if_true, hmtd] at herr
          cases herr
      · cases si with
        | errorItem e =>
            simp only [write_loop] at herr ⊢
            exact ih i db td it s hmem' hs hs0 herr
        | normal a =>
            by_cases ta : truthy a.save_id
            · by_cases hmtd : a.save_id.getD 0 ∈ td
              · simp only [write_loop, ta, if_true, hmtd] at herr ⊢
                exact ih _ _ _ it s hmem' hs hs0 herr
              · simp only [write_loop, ta, if_true, hmtd] at herr
                cases herr
            · simp only [write_loop, ta, Bool.false_eq_true, if_false]
                at herr ⊢
              exact ih _ _ _ it s hmem' hs hs0 herr

lemma write_loop_sqlar_ext (w : Option Worker) (scene : Scene) :
    ∀ (i : Nat) (db : DB) (td : List Nat), ∃ ext,
      (write_loop w scene i db td).db.sqlar = db.sqlar ++ ext ∧
      ∀ r ∈ ext, maxId db.items < r.item_id := by
  induction scene with
  | nil =>
      intro i db td
      exact ⟨[], by simp [write_loop], by intro r hr; cases hr⟩
  | cons si rest ih =>
      intro i db td
      cases si with
      | errorItem e => simpa [write_loop] using ih i db td
      | normal it =>
          by_cases ht : truthy it.save_id
          · have hm1 : (update_item db it (it.save_id.getD 0)).sqlar
                = db.sqlar := rfl
            have hm2 : maxId (update_item db it (it.save_id.getD 0)).items
                = maxId db.items := maxId_update db it _
            by_cases hmtd : it.save_id.getD 0 ∈ td
            · cases w with
              | none =>
                  obtain ⟨ext, he, hgt⟩ := ih (i + 1)
                    (update_item db it (it.save_id.getD 0))
                    (td.filter (fun n => n ≠ it.save_id.getD 0))
                  refine ⟨ext, ?_, ?_⟩
                  · simp only [write_loop, ht, if_true, hmtd]
                    rw [he, hm1]
                  · intro r hr
                    rw [← hm2]
                    exact hgt r hr
              | some wk =>
                  by_cases hc : wk.canceled i
                  · refine ⟨[], ?_, by intro r hr; cases hr⟩
                    simp [write_loop, ht, hmtd, hc, hm1]
                  · obtain ⟨ext, he, hgt⟩ := ih (i + 1)
                      (update_item db it (it.save_id.getD 0))
                      (td.filter (fun n => n ≠ it.save_id.getD 0))
                    refine ⟨ext, ?_, ?_⟩
                    · simp only [write_loop, ht, if_true, hmtd, hc,
                        Bool.false_eq_true, if_false]
                      rw [he, hm1]
                    · intro r hr
                      rw [← hm2]
                      exact hgt r hr
            · refine ⟨[], ?_, by intro r hr; cases hr⟩
              simp [write_loop, ht, hmtd, hm1]
          · have hins : insert_item db it =
                (⟨db.items ++ [rowOf it (maxId db.items + 1)],
                  db.sqlar ++ (if it.hasPixmap then
                    [srowOf it (maxId db.items + 1)] else [])⟩,
                 {it with save_id := some (maxId db.items + 1)}) := by
              by_cases hp : it.hasPixmap <;>
                simp [insert_item, freshId_eq, rowOf, srowOf, hp]
            have hmax : maxId (db.items ++ [rowOf it (maxId db.items + 1)])
                = maxId db.items + 1 := by
              rw [maxId_append_singleton]
              exact Nat.max_eq_right (Nat.le_succ _)
            have hpartgt : ∀ r ∈ (if it.hasPixmap then
                [srowOf it (maxId db.items + 1)] else []),
                maxId db.items < r.item_id := by
              intro r hr
              by_cases hp : it.hasPixmap
              · simp only [hp, if_true, List.mem_singleton] at hr
                subst hr
                simp [srowOf]
              · simp [hp] at hr
            cases w with
            | none =>
                obtain ⟨ext, he, hgt⟩ := ih (i + 1) (insert_item db it).1 td
                refine ⟨(if it.hasPixmap then
                  [srowOf it (maxId db.items + 1)] else []) ++ ext, ?_, ?_⟩
                · simp only [write_loop, ht, Bool.false_eq_true, if_false]
                  rw [he, hins]
                  simp [List.append_assoc]
                · intro r hr
                  rcases List.mem_append.mp hr with hr | hr
                  · exact hpartgt r hr
                  · have := hgt r hr
                    rw [hins] at this
                    simp only [hmax] at this
                    omega
            | some wk =>
                by_cases hc : wk.canceled i
                · refine ⟨(if it.hasPixmap then
                    [srowOf it (maxId db.items + 1)] else []), ?_, hpartgt⟩
                  simp only [write_loop, ht, Bool.false_eq_true, if_false, hc,
                    if_true, hins]
                · obtain ⟨ext, he, hgt⟩ := ih (i + 1) (insert_item db it).1 td
                  refine ⟨(if it.hasPixmap then
                    [srowOf it (maxId db.items + 1)] else []) ++ ext, ?_, ?_⟩
                  · simp only [write_loop, ht, Bool.false_eq_true, if_false, hc]
                    rw [he, hins]
                    simp [List.append_assoc]
                  · intro r hr
                    rcases List.mem_append.mp hr with hr | hr
                    · exact hpartgt r hr
                    · have := hgt r hr
                      rw [hins] at this
                      simp only [hmax] at this
                      omega

lemma filter_append_of_gt {l ext : List SqlarRow} {s : Nat}
    (hext : ∀ r ∈ ext, s < r.item_id) :
    (l ++ ext).filter (fun r => r.item_id = s)
      = l.filter (fun r => r.item_id = s) := by
  rw [List.filter_append]
  have hnil : ext.filter (fun r => decide (r.item_id = s)) = [] := by
    rw [List.filter_eq_nil_iff]
    intro r hr
    have := hext r hr
    simp
    omega
  rw [hnil, List.append_nil]

lemma filter_of_pred_subset {α : Type} (p q : α → Bool) (l : List α)
    (h : ∀ a, p a = true → q a = true) :
    (l.filter q).filter p = l.filter p := by
  induction l with
  | nil => rfl
  | cons a t ih =>
      by_cases hq : q a = true
      · by_cases hp : p a = true <;> simp [List.filter_cons, hq, hp, ih]
      · have hp : ¬ p a = true := fun hpa => hq (h a hpa)
        simp [List.filter_cons, hq, hp, ih]

lemma filter_of_not_deleted {l : List SqlarRow} {td : List Nat} {s : Nat}
    (hs : s ∉ td) :
    (l.filter (fun r => ¬ r.item_id ∈ td)).filter (fun r => r.item_id = s)
      = l.filter (fun r => r.item_id = s) := by
  apply filter_of_pred_subset
  intro a ha
  simp only [decide_eq_true_eq] at ha
  simp [ha, hs]

/-! ### Cancellation of the write loop -/

lemma items_by_type_error_map_normal (l : List NormalItem) :
    items_by_type_error (l.map .normal) = [] := by
  induction l with
  | nil => rfl
  | cons a t ih => simpa [items_by_type_error] using ih

lemma compute_to_delete_no_errors (db : DB) (its : List NormalItem) :
    compute_to_delete db (its.map .normal) = (db.items.map (·.id)).dedup := by
  simp [compute_to_delete, items_by_type_error_map_normal]

lemma write_loop_cancel (w : Worker) :
    ∀ (its : List NormalItem) (k i : Nat) (db : DB) (td : List Nat),
    1 ≤ k → k ≤ its.length →
    (∀ j, w.canceled (i + j) = decide (k ≤ j + 1)) →
    (∀ a ∈ its, ∃ s, a.save_id = some s ∧ s ≠ 0 ∧ s ∈ td) →
    ((its.map (·.save_id)).Nodup) →
    write_loop (some w) (its.map .normal) i db td =
      ⟨apply_updates db (its.take k), its.map .normal,
       remove_ids td (its.take k),
       (List.range' i k).map .progress, none⟩ := by
  intro its
  induction its with
  | nil =>
      intro k i db td hk hkn _ _ _
      exact absurd hkn (by simp; omega)
  | cons a rest ih =>
      intro k i db td hk hkn hcan hids hnd
      obtain ⟨s, hsa, hs0, hst⟩ := hids a (List.mem_cons_self _ _)
      have ht : truthy a.save_id = true := by rw [hsa]; simp [truthy, hs0]
      have hgd : a.save_id.getD 0 = s := by rw [hsa]; rfl
      have hmtd : a.save_id.getD 0 ∈ td := by rw [hgd]; exact hst
      obtain ⟨k', rfl⟩ : ∃ k', k = k' + 1 := ⟨k - 1, by omega⟩
      rcases Nat.eq_zero_or_pos k' with h0 | hpos
      · subst h0
        have hc : w.canceled i = true := by
          have := hcan 0
          simpa using this
        simp [write_loop, ht, hmtd, hc, apply_updates, remove_ids,
          List.range'_succ]
      · have hc : w.canceled i = false := by
          have := hcan 0
          rw [Nat.add_zero] at this
          rw [this]
          simp
          omega
        have hcan' : ∀ j, w.canceled (i + 1 + j) = decide (k' ≤ j + 1) := by
          intro j
          have := hcan (j + 1)
          rw [show i + (j + 1) = i + 1 + j by omega] at this
          rw [this]
          exact decide_eq_decide.mpr (by omega)
        have hnd' : (rest.map (·.save_id)).Nodup := by
          simp only [List.map_cons, List.nodup_cons] at hnd
          exact hnd.2
        have hids' : ∀ b ∈ rest, ∃ s', b.save_id = some s' ∧ s' ≠ 0 ∧
            s' ∈ td.filter (fun n => n ≠ a.save_id.getD 0) := by
          intro b hb
          obtain ⟨s', hsb, hs0', hst'⟩ := hids b (List.mem_cons_of_mem _ hb)
          refine ⟨s', hsb, hs0', ?_⟩
          rw [List.mem_filter]
          refine ⟨hst', ?_⟩
          have hbneq : b.save_id ≠ a.save_id := by
            simp only [List.map_cons, List.nodup_cons] at hnd
            intro heq
            exact hnd.1 (heq ▸ List.mem_map_of_mem _ hb)
          rw [hgd]
          have : s' ≠ s := by
            intro heq
            exact hbneq (by rw [hsb, hsa, heq])
          simpa using this
        have hlen : k' ≤ rest.length := by
          simp at hkn; omega
        simp only [List.map_cons, write_loop, ht, if_true, hmtd, hc,
          Bool.false_eq_true, if_false]
        rw [ih k' (i + 1) (update_item db a (a.save_id.getD 0))
          (td.filter (fun n => n ≠ a.save_id.getD 0)) hpos hlen hcan'
          hids' hnd']
        simp [apply_updates, remove_ids, List.take_succ_cons,
          List.range'_succ]

lemma mem_remove_ids (l : List NormalItem) :
    ∀ (td : List Nat) (n : Nat),
    n ∈ remove_ids td l ↔ n ∈ td ∧ ∀ a ∈ l, n ≠ a.save_id.getD 0 := by
  induction l with
  | nil => intro td n; simp [remove_ids]
  | cons a t ih =>
      intro td n
      rw [remove_ids, ih, List.mem_filter, List.forall_mem_cons]
      simp only [decide_eq_true_eq]
      tauto

lemma apply_updates_keeps_row (l : List NormalItem) :
    ∀ (db : DB) (r : ItemRow), r ∈ db.items →
    (∀ a ∈ l, r.id ≠ a.save_id.getD 0) →
    r ∈ (apply_updates db l).items := by
  induction l with
  | nil => intro db r hr _; exact hr
  | cons a t ih =>
      intro db r hr hne
      rw [apply_updates]
      apply ih _ r _ (fun b hb => hne b (List.mem_cons_of_mem _ hb))
      apply mem_update_item _ _ hr
      intro hid
      exact absurd hid (hne a (List.mem_cons_self _ _))

lemma update_item_writes {db : DB} {sid : Nat} (it : NormalItem)
    (hex : ∃ r ∈ db.items, r.id = sid) :
    ∃ r ∈ (update_item db it sid).items, r.id = sid ∧ r.x = it.x ∧
      r.y = it.y ∧ r.z = it.z ∧ r.scale = it.scale ∧
      r.rotation = it.rotation ∧ r.flip = it.flip ∧ r.data = it.payload := by
  obtain ⟨r, hr, hid⟩ := hex
  refine ⟨{ r with
      x := it.x, y := it.y, z := it.z, scale := it.scale,
      rotation := it.rotation, flip := it.flip, data := it.payload },
    ?_, hid, rfl, rfl, rfl, rfl, rfl, rfl, rfl⟩
  simp only [update_item]
  refine List.mem_map.mpr ⟨r, hr, ?_⟩
  show (if r.id = sid then _ else r) = _
  rw [if_pos hid]

lemma update_item_id_present {db : DB} {x : Nat} (it : NormalItem) (sid : Nat)
    (hex : ∃ r ∈ db.items, r.id = x) :
    ∃ r ∈ (update_item db it sid).items, r.id = x := by
  obtain ⟨r, hr, hid⟩ := hex
  by_cases h : r.id = sid
  · refine ⟨{ r with
        x := it.x, y := it.y, z := it.z, scale := it.scale,
        rotation := it.rotation, flip := it.flip, data := it.payload },
      ?_, hid⟩
    simp only [update_item]
    refine List.mem_map.mpr ⟨r, hr, ?_⟩
    show (if r.id = sid then _ else r) = _
    rw [if_pos h]
  · refine ⟨r, ?_, hid⟩
    apply mem_update_item _ _ hr
    intro hcontra
    exact absurd hcontra h

lemma apply_updates_result (l : List NormalItem) :
    ∀ (db : DB) (it : NormalItem), it ∈ l →
    ((l.map (·.save_id)).Nodup) →
    (∀ a ∈ l, ∃ s, a.save_id = some s ∧ s ≠ 0) →
    (∀ a ∈ l, ∃ r ∈ db.items, r.id = a.save_id.getD 0) →
    ∃ r ∈ (apply_updates db l).items, r.id = it.save_id.getD 0 ∧
      r.x = it.x ∧ r.y = it.y ∧ r.z = it.z ∧ r.scale = it.scale ∧
      r.rotation = it.rotation ∧ r.flip = it.flip ∧ r.data = it.payload := by
  induction l with
  | nil => intro db it hit; cases hit
  | cons a t ih =>
      intro db it hit hnd htr hex
      rcases List.mem_cons.mp hit with heq | hit'
      · subst heq
        obtain ⟨r, hr, hid, hfld⟩ := update_item_writes it
          (hex it (List.mem_cons_self _ _))
        rw [apply_updates]
        obtain ⟨s, hsi, hs0⟩ := htr it (List.mem_cons_self _ _)
        have hnotin : ∀ b ∈ t, r.id ≠ b.save_id.getD 0 := by
          intro b hb
          obtain ⟨s', hsb, hs0'⟩ := htr b (List.mem_cons_of_mem _ hb)
          simp only [List.map_cons, List.nodup_cons] at hnd
          have hbneq : b.save_id ≠ it.save_id := by
            intro heq
            exact hnd.1 (heq ▸ List.mem_map_of_mem _ hb)
          rw [hid, hsi, hsb]
          simp only [Option.getD_some]
          intro heq
          exact hbneq (by rw [hsb, hsi, heq])
        exact ⟨r, apply_updates_keeps_row t _ r hr hnotin, hid, hfld⟩
      · rw [apply_updates]
        apply ih _ it hit'
        · simp only [List.map_cons, List.nodup_cons] at hnd
          exact hnd.2
        · exact fun b hb => htr b (List.mem_cons_of_mem _ hb)
        · intro b hb
          exact update_item_id_present a _
            (hex b (List.mem_cons_of_mem _ hb))

/-- C5 (amended) — Cancelling a `write_data` over `n` already-persisted
items (pairwise distinct identities, all present in the container) after
`k` items stops the per-item loop, and the items already written remain
written (their rows carry the freshly written fields, no rollback); but
the deletion phase still runs over the remaining provisional deletion
set, so the stored rows of the `n − k` unprocessed items ARE deleted,
and the completion signal is emitted with an empty error list. -/
theorem writeData_cancel_C5_amended (its : List NormalItem) (db : DB)
    (fname : String) (k : Nat) (w : Worker)
    (hk : 1 ≤ k) (hkn : k ≤ its.length)
    (hw : ∀ i, w.canceled i = decide (k ≤ i + 1))
    (htr : ∀ a ∈ its, ∃ s, a.save_id = some s ∧ s ≠ 0)
    (hex : ∀ a ∈ its, ∃ r ∈ db.items, r.id = a.save_id.getD 0)
    (hNodup : (its.map (·.save_id)).Nodup) :
    (write_data (some w) fname db (its.map .normal)).err = none ∧
    (write_data (some w) fname db (its.map .normal)).log
      = Sig.begin_processing its.length ::
        ((List.range' 0 k).map .progress ++ [.finished fname []]) ∧
    (∀ a ∈ its.take k,
      ∃ row ∈ (write_data (some w) fname db (its.map .normal)).db.items,
        row.id = a.save_id.getD 0 ∧ row.x = a.x ∧ row.y = a.y ∧
        row.z = a.z ∧ row.scale = a.scale ∧ row.rotation = a.rotation ∧
        row.flip = a.flip ∧ row.data = a.payload) ∧
    (∀ a ∈ its.drop k,
      ∀ row ∈ (write_data (some w) fname db (its.map .normal)).db.items,
        row.id ≠ a.save_id.getD 0) := by
  have hids : ∀ a ∈ its, ∃ s, a.save_id = some s ∧ s ≠ 0 ∧
      s ∈ (db.items.map (·.id)).dedup := by
    intro a ha
    obtain ⟨s, hsa, hs0⟩ := htr a ha
    obtain ⟨r, hr, hid⟩ := hex a ha
    refine ⟨s, hsa, hs0, ?_⟩
    rw [List.mem_dedup]
    rw [hsa] at hid
    simp only [Option.getD_some] at hid
    exact hid ▸ List.mem_map_of_mem _ hr
  have hloop := write_loop_cancel w its k 0 db ((db.items.map (·.id)).dedup)
    hk hkn (by intro j; simpa using hw j) hids hNodup
  have hgdIn : ∀ a ∈ its, a.save_id.getD 0 ∈ (db.items.map (·.id)).dedup := by
    intro a ha
    obtain ⟨s, hsa, _, hsd⟩ := hids a ha
    rw [hsa]
    exact hsd
  have hdisj : ∀ a ∈ its.drop k, ∀ b ∈ its.take k,
      a.save_id.getD 0 ≠ b.save_id.getD 0 := by
    intro a ha b hb
    obtain ⟨sa, hsa, _⟩ := htr a (List.mem_of_mem_drop ha)
    obtain ⟨sb, hsb, _⟩ := htr b (List.mem_of_mem_take hb)
    have hmaps : (its.map (·.save_id))
        = (its.take k).map (·.save_id) ++ (its.drop k).map (·.save_id) := by
      rw [← List.map_append, List.take_append_drop]
    rw [hmaps, List.nodup_append] at hNodup
    have hne : b.save_id ≠ a.save_id := by
      intro heq
      exact (List.disjoint_left.mp hNodup.2.2
        (List.mem_map_of_mem _ hb)) (heq ▸ List.mem_map_of_mem _ ha)
    rw [hsa, hsb]
    simp only [Option.getD_some]
    intro heq
    exact hne (by rw [hsb, hsa, heq])
  simp only [write_data, compute_to_delete_no_errors, hloop]
  refine ⟨trivial, ?_, ?_, ?_⟩
  · simp [items_for_save_map_normal]
  · intro a ha
    have hmem := List.mem_of_mem_take ha
    have hndk : ((its.take k).map (·.save_id)).Nodup := by
      rw [List.map_take]
      exact hNodup.sublist (List.take_sublist _ _)
    obtain ⟨row, hrow, hrid, hfld⟩ := apply_updates_result (its.take k) db a
      ha hndk (fun b hb => htr b (List.mem_of_mem_take hb))
      (fun b hb => hex b (List.mem_of_mem_take hb))
    refine ⟨row, ?_, hrid, hfld⟩
    apply mem_delete_items hrow
    rw [hrid]
    intro hmemrem
    exact ((mem_remove_ids (its.take k) _ _).mp hmemrem).2 a ha rfl
  · intro a ha row hrow heq
    have hrowmem : row.id ∉ remove_ids ((db.items.map (·.id)).dedup)
        (its.take k) := by
      simp only [delete_items, List.mem_filter] at hrow
      simpa using hrow.2
    apply hrowmem
    rw [heq]
    rw [mem_remove_ids]
    exact ⟨hgdIn a (List.mem_of_mem_drop ha), fun b hb => hdisj a ha b hb⟩

/-- Witness for C5 (amended): the container {1,2}, its two items,
cancelled after the first. -/
theorem writeData_cancel_C5_amended_witness :
    (1 ≤ 1 ∧ 1 ≤ [sampleItem (some 1) false, sampleItem (some 2) false].length ∧
     (∀ i, (workerCancelAfter 1).canceled i = decide (1 ≤ i + 1)) ∧
     (∀ a ∈ [sampleItem (some 1) false, sampleItem (some 2) false],
        ∃ s, a.save_id = some s ∧ s ≠ 0) ∧
     (∀ a ∈ [sampleItem (some 1) false, sampleItem (some 2) false],
        ∃ r ∈ dbC5.items, r.id = a.save_id.getD 0) ∧
     (([sampleItem (some 1) false, sampleItem (some 2) false].map
        (·.save_id)).Nodup)) ∧
    ((write_data (some (workerCancelAfter 1)) "g.bee" dbC5
        ([sampleItem (some 1) false, sampleItem (some 2) false].map .normal)).err
       = none ∧
     (write_data (some (workerCancelAfter 1)) "g.bee" dbC5
        ([sampleItem (some 1) false, sampleItem (some 2) false].map .normal)).log
       = Sig.begin_processing 2 ::
         ((List.range' 0 1).map .progress ++ [.finished "g.bee" []]) ∧
     (∀ a ∈ [sampleItem (some 1) false, sampleItem (some 2) false].take 1,
       ∃ row ∈ (write_data (some (workerCancelAfter 1)) "g.bee" dbC5
          ([sampleItem (some 1) false, sampleItem (some 2) false].map
            .normal)).db.items,
         row.id = a.save_id.getD 0 ∧ row.x = a.x ∧ row.y = a.y ∧
         row.z = a.z ∧ row.scale = a.scale ∧ row.rotation = a.rotation ∧
         row.flip = a.flip ∧ row.data = a.payload) ∧
     (∀ a ∈ [sampleItem (some 1) false, sampleItem (some 2) false].drop 1,
       ∀ row ∈ (write_data (some (workerCancelAfter 1)) "g.bee" dbC5
          ([sampleItem (some 1) false, sampleItem (some 2) false].map
            .normal)).db.items,
         row.id ≠ a.save_id.getD 0)) :=
  ⟨⟨by decide, by decide, fun i => rfl, by decide, by decide, by decide⟩,
   writeData_cancel_C5_amended
     [sampleItem (some 1) false, sampleItem (some 2) false] dbC5 "g.bee" 1
     (workerCancelAfter 1) (by decide) (by decide) (fun i => rfl)
     (by decide) (by decide) (by decide)⟩

/-- C8 — Identity stability and blob immutability: re-writing an
already-persisted, unmodified item (its stored row's transform fields
and payload equal the item's) leaves the item's save identity
unchanged (the update path never touches `save_id`), leaves its stored
items row unchanged, and leaves every `sqlar` row owned by its
identity — name, mode, timestamp, size and bytes — entirely untouched. -/
theorem identity_blob_stability_C8 (db : DB) (scene : Scene) (fname : String)
    (it : NormalItem) (s : Nat) (m : ItemRow)
    (hit : SceneItem.normal it ∈ scene)
    (hs : it.save_id = some s) (hs0 : s ≠ 0)
    (hm : m ∈ db.items) (hmid : m.id = s)
    (hx : m.x = it.x) (hy : m.y = it.y) (hz : m.z = it.z)
    (hsc : m.scale = it.scale) (hrot : m.rotation = it.rotation)
    (hfl : m.flip = it.flip) (hdata : m.data = it.payload)
    (hUnique : ∀ a ∈ items_for_save scene, a.save_id = some s → a = it)
    (hOk : (write_data none fname db scene).err = none) :
    SceneItem.normal it ∈ (write_data none fname db scene).scene ∧
    m ∈ (write_data none fname db scene).db.items ∧
    (write_data none fname db scene).db.sqlar.filter (fun r => r.item_id = s)
      = db.sqlar.filter (fun r => r.item_id = s) := by
  have ht : truthy it.save_id = true := by rw [hs]; simp [truthy, hs0]
  have hnotin : s ∉ (write_loop none scene 0 db
      (compute_to_delete db scene)).to_delete := by
    apply write_loop_removes_sid scene 0 db _ it s hit hs hs0
    simp only [write_data] at hOk
    cases herr : (write_loop none scene 0 db (compute_to_delete db scene)).err with
    | some e' => simp only [herr] at hOk; cases hOk
    | none => rfl
  simp only [write_data] at hOk ⊢
  cases herr : (write_loop none scene 0 db (compute_to_delete db scene)).err with
  | some e' => simp only [herr] at hOk; cases hOk
  | none =>
      simp only [herr]
      refine ⟨?_, ?_, ?_⟩
      · exact write_loop_scene_keeps none scene 0 db _ it hit ht
      · have hpres : m ∈ (write_loop none scene 0 db
            (compute_to_delete db scene)).db.items := by
          apply write_loop_preserves_row none scene 0 db _ m hm
          intro a ha _ hsida
          have haeq : a = it := hUnique a ha (by rw [hsida, hmid])
          subst haeq
          rw [← hx, ← hy, ← hz, ← hsc, ← hrot, ← hfl, ← hdata]
        apply mem_delete_items hpres
        rw [hmid]
        exact hnotin
      · obtain ⟨ext, he, hgt⟩ :=
          write_loop_sqlar_ext none scene 0 db (compute_to_delete db scene)
        have hsmax : s ≤ maxId db.items := by
          rw [← hmid]; exact mem_le_maxId hm
        simp only [delete_items]
        rw [filter_of_not_deleted hnotin, he]
        exact filter_append_of_gt
          (fun r hr => lt_of_le_of_lt hsmax (hgt r hr))

/-- Witness for C8: a container holding the pixmap item saved as 1
(row and blob), re-written unmodified. -/
theorem identity_blob_stability_C8_witness :
    (SceneItem.normal (sampleItem (some 1) true)
        ∈ [SceneItem.normal (sampleItem (some 1) true)] ∧
     (sampleItem (some 1) true).save_id = some 1 ∧ (1 : Nat) ≠ 0 ∧
     sampleRow 1 ∈ (⟨[sampleRow 1], [sampleSqlar 1]⟩ : DB).items ∧
     (sampleRow 1).id = 1 ∧
     (∀ a ∈ items_for_save [SceneItem.normal (sampleItem (some 1) true)],
        a.save_id = some 1 → a = sampleItem (some 1) true) ∧
     (write_data none "f.bee" ⟨[sampleRow 1], [sampleSqlar 1]⟩
        [SceneItem.normal (sampleItem (some 1) true)]).err = none) ∧
    (SceneItem.normal (sampleItem (some 1) true)
        ∈ (write_data none "f.bee" ⟨[sampleRow 1], [sampleSqlar 1]⟩
            [SceneItem.normal (sampleItem (some 1) true)]).scene ∧
     sampleRow 1 ∈ (write_data none "f.bee" ⟨[sampleRow 1], [sampleSqlar 1]⟩
        [SceneItem.normal (sampleItem (some 1) true)]).db.items ∧
     (write_data none "f.bee" ⟨[sampleRow 1], [sampleSqlar 1]⟩
        [SceneItem.normal (sampleItem (some 1) true)]).db.sqlar.filter
          (fun r => r.item_id = 1)
       = (⟨[sampleRow 1], [sampleSqlar 1]⟩ : DB).sqlar.filter
           (fun r => r.item_id = 1)) :=
  ⟨⟨by decide, by decide, by decide, by decide, by decide, by decide, by decide⟩,
   identity_blob_stability_C8 ⟨[sampleRow 1], [sampleSqlar 1]⟩
     [SceneItem.normal (sampleItem (some 1) true)] "f.bee"
     (sampleItem (some 1) true) 1 (sampleRow 1)
     (by decide) (by decide) (by decide) (by decide) (by decide) (by decide)
     (by decide) (by decide) (by decide) (by decide) (by decide) (by decide)
     (by decide) (by decide)⟩

/-- C3 — Error-placeholder protection: whenever a live error-placeholder
carries original save identity `N`, the deletion set computed by the
write pipeline excludes `N`, and after a `write_data` run that completes
without an exception the stored row with identifier `N` is still
present, unchanged, even though no in-memory item with save identity `N`
was written. -/
theorem error_placeholder_protection_C3 (worker : Option Worker)
    (fname : String) (db : DB) (scene : Scene) (e : ErrorItem) (N : Nat)
    (m : ItemRow)
    (he : SceneItem.errorItem e ∈ scene)
    (hN : e.original_save_id = some N)
    (hm : m ∈ db.items) (hid : m.id = N)
    (hNoItem : ∀ it ∈ items_for_save scene, it.save_id ≠ some N)
    (hOk : (write_data worker fname db scene).err = none) :
    N ∉ compute_to_delete db scene ∧
    m ∈ (write_data worker fname db scene).db.items := by
  have hnotdel : N ∉ compute_to_delete db scene :=
    not_mem_compute_to_delete he hN
  refine ⟨hnotdel, ?_⟩
  have hpres : m ∈ (write_loop worker scene 0 db
      (compute_to_delete db scene)).db.items := by
    apply write_loop_preserves_row worker scene 0 db _ m hm
    intro it hit _ hsid
    exact absurd hsid (by rw [hid]; exact hNoItem it hit)
  have hsub := write_loop_td_subset worker scene 0 db (compute_to_delete db scene)
  simp only [write_data] at hOk ⊢
  cases herr : (write_loop worker scene 0 db (compute_to_delete db scene)).err with
  | some e' => simp only [herr] at hOk; cases hOk
  | none =>
      simp only [herr]
      apply mem_delete_items hpres
      rw [hid]
      exact fun hmem => hnotdel (hsub hmem)

/-- Witness for C3: a container holding row 7, a scene with one
placeholder protecting identity 7 and one fresh item. -/
theorem error_placeholder_protection_C3_witness :
    (SceneItem.errorItem ⟨some 7, 0, 0, 0, 1, 0, ⟨[]⟩⟩
        ∈ [SceneItem.errorItem ⟨some 7, 0, 0, 0, 1, 0, ⟨[]⟩⟩,
           SceneItem.normal (sampleItem none false)] ∧
     (⟨some 7, 0, 0, 0, 1, 0, (⟨[]⟩ : Payload)⟩ : ErrorItem).original_save_id
        = some 7 ∧
     sampleTextRow 7 ∈ (⟨[sampleTextRow 7], []⟩ : DB).items ∧
     (sampleTextRow 7).id = 7 ∧
     (∀ it ∈ items_for_save
        [SceneItem.errorItem ⟨some 7, 0, 0, 0, 1, 0, ⟨[]⟩⟩,
         SceneItem.normal (sampleItem none false)], it.save_id ≠ some 7) ∧
     (write_data none "b.bee" ⟨[sampleTextRow 7], []⟩
        [SceneItem.errorItem ⟨some 7, 0, 0, 0, 1, 0, ⟨[]⟩⟩,
         SceneItem.normal (sampleItem none false)]).err = none) ∧
    (7 ∉ compute_to_delete (⟨[sampleTextRow 7], []⟩ : DB)
        [SceneItem.errorItem ⟨some 7, 0, 0, 0, 1, 0, ⟨[]⟩⟩,
         SceneItem.normal (sampleItem none false)] ∧
     sampleTextRow 7 ∈ (write_data none "b.bee" ⟨[sampleTextRow 7], []⟩
        [SceneItem.errorItem ⟨some 7, 0, 0, 0, 1, 0, ⟨[]⟩⟩,
         SceneItem.normal (sampleItem none false)]).db.items) :=
  ⟨⟨by decide, by decide, by decide, by decide, by decide, by decide⟩,
   error_placeholder_protection_C3 none "b.bee" ⟨[sampleTextRow 7], []⟩
     [SceneItem.errorItem ⟨some 7, 0, 0, 0, 1, 0, ⟨[]⟩⟩,
      SceneItem.normal (sampleItem none false)]
     ⟨some 7, 0, 0, 0, 1, 0, ⟨[]⟩⟩ 7 (sampleTextRow 7)
     (by decide) (by decide) (by decide) (by decide) (by decide) (by decide)⟩

/-- C1 — Round-trip: writing a scene of class-shaped items that carry no
pre-existing save identity into a fresh container and reading the same
container back yields item dictionaries that are, as a multiset, exactly
the original items' type tags, transform fields and payloads, each
paired with its store-assigned identity; the identities written back
onto the scene are the consecutive fresh ids 1..n, stable (position `j`
holds id `j+1`, matching `expectedData`) and pairwise distinct. -/
theorem write_read_roundtrip_C1 (its : List NormalItem)
    (fname fname2 : String) (pl : List Nat → Bool)
    (hNoId : ∀ it ∈ its, it.save_id = none)
    (hWF : ∀ it ∈ its, ClassShaped it)
    (hLoad : ∀ it ∈ its, it.hasPixmap = true → pl it.pixBytes = true) :
    (write_data none fname DB.empty (its.map .normal)).err = none ∧
    (items_for_save (write_data none fname DB.empty (its.map .normal)).scene).map
        (·.save_id) = (List.range' 1 its.length).map some ∧
    ((items_for_save (write_data none fname DB.empty (its.map .normal)).scene).map
        (·.save_id)).Nodup ∧
    (read pl none fname2
        (write_data none fname DB.empty (its.map .normal)).db).queued.length
      = its.length ∧
    (read pl none fname2
        (write_data none fname DB.empty (its.map .normal)).db).queued.Perm
      (expectedData 1 its) := by
  have hN : ∀ it ∈ items_for_save (its.map .normal), it.save_id = none := by
    rw [items_for_save_map_normal]; exact hNoId
  have hw := write_data_fresh (its.map .normal) fname hN
  rw [hw]
  have hids : (items_for_save (assignScene 1 (its.map .normal))).map (·.save_id)
      = (List.range' 1 its.length).map some := by
    rw [items_for_save_assignScene, items_for_save_map_normal,
      assignIds_map_save_id]
  have hread : (read pl none fname2
      ⟨freshRows 1 (items_for_save (its.map .normal)),
       freshSqlar 1 (items_for_save (its.map .normal))⟩).queued
      = pixData 1 its ++ textData 1 its := by
    rw [items_for_save_map_normal]
    simp only [read, read_rows, read_loop_none]
    rw [List.map_append]
    rw [join_fresh_mapped pl its 1 hLoad, text_fresh_mapped pl its 1]
  have hperm : (read pl none fname2
      ⟨freshRows 1 (items_for_save (its.map .normal)),
       freshSqlar 1 (items_for_save (its.map .normal))⟩).queued.Perm
      (expectedData 1 its) := by
    rw [hread]; exact pix_text_perm its 1 hWF
  refine ⟨rfl, hids, ?_, ?_, hperm⟩
  · rw [hids]
    exact (List.nodup_range' 1 its.length).map (Option.some_injective Nat)
  · rw [hperm.length_eq, expectedData_length]

/-- Witness for C1 at a two-item scene (one pixmap item, one text
item), with a decoder that loads every byte string. -/
theorem write_read_roundtrip_C1_witness :
    (∀ it ∈ [sampleItem none true, sampleItem none false], it.save_id = none) ∧
    ((write_data none "a.bee" DB.empty
        ([sampleItem none true, sampleItem none false].map .normal)).err = none ∧
     (items_for_save (write_data none "a.bee" DB.empty
        ([sampleItem none true, sampleItem none false].map .normal)).scene).map
          (·.save_id) = (List.range' 1 2).map some ∧
     ((items_for_save (write_data none "a.bee" DB.empty
        ([sampleItem none true, sampleItem none false].map .normal)).scene).map
          (·.save_id)).Nodup ∧
     (read (fun _ => true) none "a.bee"
        (write_data none "a.bee" DB.empty
          ([sampleItem none true, sampleItem none false].map .normal)).db).queued.length
        = 2 ∧
     (read (fun _ => true) none "a.bee"
        (write_data none "a.bee" DB.empty
          ([sampleItem none true, sampleItem none false].map .normal)).db).queued.Perm
        (expectedData 1 [sampleItem none true, sampleItem none false])) :=
  ⟨by decide,
   write_read_roundtrip_C1 [sampleItem none true, sampleItem none false]
     "a.bee" "a.bee" (fun _ => true) (by decide)
     (by intro it h; fin_cases h <;> simp [ClassShaped, sampleItem])
     (by decide)⟩

/-- C2 — Reconciliation correctness: with stored identities {1,2,3} and
a scene holding the items saved as 1 and 3 plus one brand-new item, a
completed `write_data` leaves stored identities exactly {1,3,4}: the
id-2 row and its blob row are gone, and the new item got identity 4
written back onto it. -/
theorem writeData_reconciliation_C2 :
    (write_data none "test.bee" dbC2 sceneC2).err = none ∧
    (write_data none "test.bee" dbC2 sceneC2).db.items.map (·.id) = [1, 3, 4] ∧
    (write_data none "test.bee" dbC2 sceneC2).db.sqlar.map (·.item_id) = [1, 3, 4] ∧
    (∀ s ∈ (write_data none "test.bee" dbC2 sceneC2).db.sqlar, s.item_id ≠ 2) ∧
    (items_for_save (write_data none "test.bee" dbC2 sceneC2).scene).map (·.save_id)
      = [some 1, some 3, some 4] := by
  decide

/-- C5 (counterexample) — Cancelling a `write_data` over the items saved
as 1 and 2 after the first item was processed does not merely halt the
loop: the deletion phase still runs and deletes the stored row of the
*unprocessed* second item (identity 2), so the container ends with
identities {1} instead of the claimed {1,2}. -/
theorem writeData_cancel_deletes_unprocessed_C5_cex :
    (write_data (some (workerCancelAfter 1)) "test.bee" dbC5 sceneC5).err = none ∧
    (write_data (some (workerCancelAfter 1)) "test.bee" dbC5 sceneC5).db.items.map (·.id)
      = [1] ∧
    (∀ r ∈ (write_data (some (workerCancelAfter 1)) "test.bee" dbC5 sceneC5).db.items,
      r.id ≠ 2) := by
  decide

/-- C4 (counterexample) — `write_data` is not atomic: on a scene whose
second item carries a stale save identity 7, the run raises `KeyError`
in the per-item loop (at `to_delete.remove`) after the first item's
insert has already been committed; the failed run leaves the partial
insert (identity 1) visible in the container. -/
theorem writeData_not_atomic_C4_cex :
    (write_data none "test.bee" DB.empty sceneC4).err = some (.keyError 7) ∧
    (write_data none "test.bee" DB.empty sceneC4).db.items.map (·.id) = [1] := by
  decide

/-- C7 (counterexample) — A failing migration while opening an existing
version-1 container on the read path is *not* surfaced: the engine
automatically forces create-new semantics (`create_new` becomes true,
scene save ids are cleared) and reconnects to the file, so the caller
receives a successfully established connection instead of the failure. -/
theorem migration_failure_auto_fallback_C7_cex :
    (establish_connection engC7 (some fileC7) sceneC5).engine.create_new = true ∧
    (establish_connection engC7 (some fileC7) sceneC5).conn = some fileC7 ∧
    (∀ it ∈ items_for_save (establish_connection engC7 (some fileC7) sceneC5).scene,
      it.save_id = none) := by
  rw [establish_connection]
  simp only [engC7, fileC7, migrate, USER_VERSION, dbC5]
  norm_num
  rw [establish_connection]
  simp [clear_save_ids, items_for_save, sceneC5]

/-- C6 — The write entry point retries exactly once: whenever the first
run of the try-body raises, precisely two attempts are made — the
original one and a single retry with create-new semantics forced — and
the outcome escapes to the failure-recovery wrapper exactly when the
retried attempt raises too; no third attempt exists. -/
theorem write_retries_once_C6 (raisesAt : Nat → Bool) (cn : Bool)
    (h0 : raisesAt 0 = true) :
    (write_control raisesAt false cn 0).1 = [(0, cn), (1, true)] ∧
    ((write_control raisesAt false cn 0).2 = .raised ↔ raisesAt 1 = true) := by
  rw [write_control, h0]
  simp only [if_true, Bool.false_eq_true, if_false]
  rw [write_control]
  by_cases h1 : raisesAt 1 = true
  · simp [h1]
  · simp [h1]

/-- Witness for C6 at the oracle that raises only on attempt 0. -/
theorem write_retries_once_C6_witness :
    ((fun n => decide (n = 0)) 0 = true) ∧
    ((write_control (fun n => decide (n = 0)) false false 0).1 = [(0, false), (1, true)] ∧
     ((write_control (fun n => decide (n = 0)) false false 0).2 = .raised
        ↔ (fun n => decide (n = 0)) 1 = true)) :=
  ⟨by decide, write_retries_once_C6 (fun n => decide (n = 0)) false (by decide)⟩

end BeeRef
